import Mathlib

/-!
# Python extension of the launcher: module manager

Shallow embedding of `src/python/src/extension.cpp` (`Python::Extension`):
the query router `handleQuery`, the enabled list (`isEnabled`, `setEnabled`)
and the directory reconciliation `updateDirectory`.

Member functions become functions on an explicit `Extension` state that
return the new state together with the sequence of observable events they
issue (mutex operations, calls into modules, settings writes, signals).
`std::vector<std::unique_ptr<PythonModuleV1>>` is a `List PythonModuleV1`
and a reference to a live module is its position in that list, since every
module object is owned by the vector.

`std::sort` belongs to the host: general statements hold for every sort that
keeps the promise of the C++ standard (`StdSort`), concrete runs use the
algorithm of the library (`stdSort`).
-/

namespace Python

/-- Key of the persisted enabled list, `CFG_ENABLEDMODS` in the source. -/
def CFG_ENABLEDMODS : String := "enabled_modules"

/-- Load state of a module, `PythonModuleV1::State`. -/
inductive State where
  | Unloaded
  | Loaded
  deriving DecidableEq, Inhabited

/-- Modelled from the spec: the class `PythonModuleV1` is declared in
`pythonmodulev1.h`, which is not part of the sources at hand. The attributes
are those of the spec's data model: `id`, `path`, display name (`name()` in
the source), `trigger`, `state` and `lastError`. -/
structure PythonModuleV1 where
  path : String
  id : String
  name : String
  trigger : String
  state : State
  lastError : Option String
  deriving DecidableEq, Inhabited

/-- Metadata a module declares, read when it is loaded. -/
structure Metadata where
  name : String
  trigger : String
  deriving DecidableEq

/-- Modelled from the spec: the class `Core::Query` is declared in
`core/query.h`, which is not part of the sources at hand. The request carries
its text, the trigger the host matched, and the validity flag; `isTriggered()`
and `isValid()` are what `handleQuery` reads of it. -/
structure Query where
  string : String
  trigger : String
  isTriggered : Bool
  isValid : Bool
  deriving DecidableEq

/-- External collaborators of the extension, each a function of its input:
the filesystem (`QFile::exists`, the entries a `QDirIterator` with
`Files|Dirs|NoDotAndDotDot` yields for a directory, `QFileInfo::completeBaseName`),
the locale (`QString::localeAwareCompare`), the C++ library (`std::sort` on the
vector of modules with a comparator) and the scripting runtime (executing a
module's code, calling a module's query handler). -/
structure Host where
  fileExists : String → Bool
  entries : String → List String
  completeBaseName : String → String
  localeAwareCompare : String → String → Int
  sort : (PythonModuleV1 → PythonModuleV1 → Bool) → List PythonModuleV1 → List PythonModuleV1
  executeModuleCode : String → Except String Metadata
  invokeCallable : PythonModuleV1 → Query → Query

/-- Observable actions of the extension. A module is named by its position in
`d->modules` at the time of the call; `handleQuery` carries `query->isValid()`
as it reads right after the module's handler returned. -/
inductive Event where
  | lock
  | unlock
  | load (module : Nat)
  | unload (module : Nat)
  | handleQuery (module : Nat) (isValid : Bool)
  | setValue (key : String) (value : List String)
  | modulesChanged
  deriving DecidableEq

/-- The private data `Python::Private` as far as the three operations use it. -/
structure Private where
  modules : List PythonModuleV1
  enabledModules : List String
  deriving DecidableEq

/-- The extension object: its private data and the settings store entry
written by `settings().setValue(CFG_ENABLEDMODS, ...)`. -/
structure Extension where
  d : Private
  settings : List String
  deriving DecidableEq

namespace PythonModuleV1

/-- Modelled from the spec: the constructor `PythonModuleV1(path)`, missing
from the sources. The module starts `Unloaded`, its `id` is the base name of
the path with the extension stripped; display name and trigger are only known
after a load, until then the name is the id and the trigger is empty. -/
def create (host : Host) (path : String) : PythonModuleV1 :=
  { path := path
    id := host.completeBaseName path
    name := host.completeBaseName path
    trigger := ""
    state := State.Unloaded
    lastError := none }

/-- Modelled from the spec: `PythonModuleV1::load()`, missing from the sources.
Idempotent when already `Loaded`; otherwise the runtime executes the module's
code, on success the module is `Loaded` with the declared metadata, on failure
it records the error and stays `Unloaded`. -/
def load (host : Host) (m : PythonModuleV1) : PythonModuleV1 :=
  if m.state = State.Loaded then m
  else
    match host.executeModuleCode m.path with
    | Except.ok md =>
      { m with name := md.name, trigger := md.trigger, state := State.Loaded, lastError := none }
    | Except.error e =>
      { m with state := State.Unloaded, lastError := some e }

/-- Modelled from the spec: `PythonModuleV1::unload()`, missing from the
sources. Idempotent when already `Unloaded`, never fails. -/
def unload (m : PythonModuleV1) : PythonModuleV1 :=
  if m.state = State.Unloaded then m
  else { m with state := State.Unloaded }

end PythonModuleV1

/-! ## handleQuery -/

/-- The condition of the first loop of `handleQuery` (triggered request). -/
def triggeredMatch (enabledModules : List String) (query : Query) (module : PythonModuleV1) : Bool :=
  enabledModules.contains module.id
    && decide (module.state = State.Loaded)
    && decide (module.trigger = query.trigger)

/-- The condition of the second loop of `handleQuery` (untriggered request). -/
def untriggeredMatch (enabledModules : List String) (module : PythonModuleV1) : Bool :=
  enabledModules.contains module.id
    && decide (module.state = State.Loaded)
    && module.trigger.isEmpty

/-- The loop over `d->modules` for a triggered query; `idx` is the position of
the head of the remaining range. The first matching module handles the query
and the function returns. -/
def triggeredLoop (host : Host) (enabledModules : List String) (query : Query) :
    Nat → List PythonModuleV1 → Query × List Event
  | _, [] => (query, [])
  | idx, module :: rest =>
    if triggeredMatch enabledModules query module then
      let q := host.invokeCallable module query
      (q, [Event.handleQuery idx q.isValid])
    else
      triggeredLoop host enabledModules query (idx + 1) rest

/-- The loop over `d->modules` for an untriggered query. Every matching module
handles the query; the function returns as soon as the query is not valid
after a handler. -/
def untriggeredLoop (host : Host) (enabledModules : List String) :
    Nat → List PythonModuleV1 → Query → Query × List Event
  | _, [], query => (query, [])
  | idx, module :: rest, query =>
    if untriggeredMatch enabledModules module then
      let q := host.invokeCallable module query
      if !q.isValid then
        (q, [Event.handleQuery idx q.isValid])
      else
        let r := untriggeredLoop host enabledModules (idx + 1) rest q
        (r.1, Event.handleQuery idx q.isValid :: r.2)
    else
      untriggeredLoop host enabledModules (idx + 1) rest query

/-- The member `Extension::handleQuery`. The `QMutexLocker` takes
`pythonMutex` on entry and releases it when the scope is left, on either
return. The extension itself is returned as it is (the member is `const`). -/
def handleQuery (host : Host) (ext : Extension) (query : Query) :
    Extension × Query × List Event :=
  let r :=
    if query.isTriggered then triggeredLoop host ext.d.enabledModules query 0 ext.d.modules
    else untriggeredLoop host ext.d.enabledModules 0 ext.d.modules query
  (ext, r.1, [Event.lock] ++ r.2 ++ [Event.unlock])

/-- The member `Extension::triggers`. -/
def triggers (ext : Extension) : List String :=
  ext.d.modules.map (fun module => module.trigger)

/-! ## isEnabled, setEnabled -/

/-- The member `Extension::isEnabled` for the module at position `module`. -/
def isEnabled (ext : Extension) (module : Nat) : Bool :=
  match ext.d.modules[module]? with
  | some m => ext.d.enabledModules.contains m.id
  | none => false

/-- The member `Extension::setEnabled` for the module at position `module`:
append the id or remove all its occurrences, write the list to the settings,
then load or unload the module. A position outside the collection denotes no
module object and leaves everything as it is. -/
def setEnabled (host : Host) (ext : Extension) (module : Nat) (enable : Bool) :
    Extension × List Event :=
  match ext.d.modules[module]? with
  | none => (ext, [])
  | some m =>
    let enabledModules :=
      if enable then ext.d.enabledModules ++ [m.id]
      else ext.d.enabledModules.filter (fun s => s != m.id)
    let m1 := if enable then PythonModuleV1.load host m else PythonModuleV1.unload m
    ({ d := { modules := ext.d.modules.set module m1, enabledModules := enabledModules }
       settings := enabledModules },
     [Event.setValue CFG_ENABLEDMODS enabledModules,
      if enable then Event.load module else Event.unload module])

/-- A sequence of `setEnabled` calls, each given as position and flag. -/
def setEnabledAll (host : Host) : Extension → List (Nat × Bool) → Extension
  | ext, [] => ext
  | ext, c :: cs => setEnabledAll host (setEnabled host ext c.1 c.2).1 cs

/-- Calls in which `setEnabled(m, true)` is only issued for a live module that
`isEnabled` reports as not enabled at that moment. -/
def enablesOnlyDisabled (host : Host) : Extension → List (Nat × Bool) → Bool
  | _, [] => true
  | ext, c :: cs =>
    (!c.2 || !isEnabled ext c.1)
      && enablesOnlyDisabled host (setEnabled host ext c.1 c.2).1 cs

/-! ## std::sort

The algorithm of `std::sort` in the C++ library the extension is built with
(`bits/stl_algo.h`), on a vector given as a list with iterators as offsets.
Loops that run until a sentinel stops them take a bound on their steps. -/

/-- The call `std::iter_swap(a, b)` on the elements at offsets `a` and `b`. -/
def iterSwap {α : Type} [Inhabited α] (v : List α) (a b : Nat) : List α :=
  (v.set a (v.getD b default)).set b (v.getD a default)

/-- The helper `__move_median_to_first(result, a, b, c, comp)`: swaps the median
of the elements at `a`, `b`, `c` to `result`. -/
def moveMedianToFirst {α : Type} [Inhabited α] (comp : α → α → Bool) (v : List α)
    (result a b c : Nat) : List α :=
  if comp (v.getD a default) (v.getD b default) then
    if comp (v.getD b default) (v.getD c default) then iterSwap v result b
    else if comp (v.getD a default) (v.getD c default) then iterSwap v result c
    else iterSwap v result a
  else if comp (v.getD a default) (v.getD c default) then iterSwap v result a
  else if comp (v.getD b default) (v.getD c default) then iterSwap v result c
  else iterSwap v result b

/-- The inner loop `while (comp(first, pivot)) ++first;` of
`__unguarded_partition`; the first argument bounds the number of steps. -/
def scanUp {α : Type} [Inhabited α] (comp : α → α → Bool) (v : List α) (pivot : Nat) :
    Nat → Nat → Nat
  | 0, first => first
  | fuel + 1, first =>
    if comp (v.getD first default) (v.getD pivot default) then scanUp comp v pivot fuel (first + 1)
    else first

/-- The inner loop `while (comp(pivot, last)) --last;` of
`__unguarded_partition`; the first argument bounds the number of steps. -/
def scanDown {α : Type} [Inhabited α] (comp : α → α → Bool) (v : List α) (pivot : Nat) :
    Nat → Nat → Nat
  | 0, last => last
  | fuel + 1, last =>
    if comp (v.getD pivot default) (v.getD last default) then scanDown comp v pivot fuel (last - 1)
    else last

/-- The helper `__unguarded_partition(first, last, pivot, comp)`; returns the
range and the cut. The first argument bounds the number of rounds. -/
def unguardedPartition {α : Type} [Inhabited α] (comp : α → α → Bool) (pivot : Nat) :
    Nat → List α → Nat → Nat → List α × Nat
  | 0, v, first, _ => (v, first)
  | fuel + 1, v, first, last =>
    let first1 := scanUp comp v pivot v.length first
    let last1 := scanDown comp v pivot v.length (last - 1)
    if !(decide (first1 < last1)) then (v, first1)
    else unguardedPartition comp pivot fuel (iterSwap v first1 last1) (first1 + 1) last1

/-- The helper `__unguarded_partition_pivot(first, last, comp)`. -/
def unguardedPartitionPivot {α : Type} [Inhabited α] (comp : α → α → Bool) (v : List α)
    (first last : Nat) : List α × Nat :=
  let mid := first + (last - first) / 2
  let v1 := moveMedianToFirst comp v first (first + 1) mid (last - 1)
  unguardedPartition comp first v1.length v1 (first + 1) last

/-- The helper `__unguarded_linear_insert(last, comp)` with the value `val`
taken from `*last`; the first argument bounds the number of steps. -/
def unguardedLinearInsert {α : Type} [Inhabited α] (comp : α → α → Bool) :
    Nat → List α → Nat → α → List α
  | 0, v, last, val => v.set last val
  | fuel + 1, v, last, val =>
    if comp val (v.getD (last - 1) default) then
      unguardedLinearInsert comp fuel (v.set last (v.getD (last - 1) default)) (last - 1) val
    else v.set last val

/-- The loop of `__insertion_sort(first, last, comp)` from `i` on, for `n`
elements: an element less than `*first` is moved to the front of the range,
any other is inserted by `__unguarded_linear_insert`. -/
def insertionSortLoop {α : Type} [Inhabited α] (comp : α → α → Bool) (first : Nat) :
    Nat → List α → Nat → List α
  | 0, v, _ => v
  | n + 1, v, i =>
    let val := v.getD i default
    let v1 :=
      if comp val (v.getD first default) then
        v.take first ++ val :: ((v.drop first).take (i - first) ++ v.drop (i + 1))
      else unguardedLinearInsert comp i v i val
    insertionSortLoop comp first n v1 (i + 1)

/-- The helper `__insertion_sort(first, last, comp)`. -/
def insertionSort {α : Type} [Inhabited α] (comp : α → α → Bool) (v : List α)
    (first last : Nat) : List α :=
  if first = last then v
  else insertionSortLoop comp first (last - (first + 1)) v (first + 1)

/-- The helper `__unguarded_insertion_sort(first, last, comp)`, for `n = last - first`
elements from `i = first` on. -/
def unguardedInsertionSort {α : Type} [Inhabited α] (comp : α → α → Bool) :
    Nat → List α → Nat → List α
  | 0, v, _ => v
  | n + 1, v, i =>
    unguardedInsertionSort comp n (unguardedLinearInsert comp i v i (v.getD i default)) (i + 1)

/-- The helper `__final_insertion_sort(first, last, comp)` with `_S_threshold = 16`. -/
def finalInsertionSort {α : Type} [Inhabited α] (comp : α → α → Bool) (v : List α)
    (first last : Nat) : List α :=
  if last - first > 16 then
    unguardedInsertionSort comp (last - (first + 16))
      (insertionSort comp v first (first + 16)) (first + 16)
  else insertionSort comp v first last

/-- The helper `__push_heap(first, holeIndex, topIndex, value, comp)`; the first
argument bounds the number of steps. -/
def pushHeap {α : Type} [Inhabited α] (comp : α → α → Bool) (first : Nat) :
    Nat → List α → Nat → Nat → α → List α
  | 0, v, holeIndex, _, value => v.set (first + holeIndex) value
  | fuel + 1, v, holeIndex, topIndex, value =>
    let parent := (holeIndex - 1) / 2
    if decide (holeIndex > topIndex) && comp (v.getD (first + parent) default) value then
      pushHeap comp first fuel (v.set (first + holeIndex) (v.getD (first + parent) default))
        parent topIndex value
    else v.set (first + holeIndex) value

/-- The loop `while (secondChild < (len - 1) / 2)` of `__adjust_heap`; returns
the range, the hole and the second child. -/
def adjustHeapLoop {α : Type} [Inhabited α] (comp : α → α → Bool) (first len : Nat) :
    Nat → List α → Nat → Nat → List α × Nat × Nat
  | 0, v, holeIndex, secondChild => (v, holeIndex, secondChild)
  | fuel + 1, v, holeIndex, secondChild =>
    if secondChild < (len - 1) / 2 then
      let c := 2 * (secondChild + 1)
      let c1 :=
        if comp (v.getD (first + c) default) (v.getD (first + (c - 1)) default) then c - 1
        else c
      adjustHeapLoop comp first len fuel (v.set (first + holeIndex) (v.getD (first + c1) default))
        c1 c1
    else (v, holeIndex, secondChild)

/-- The helper `__adjust_heap(first, holeIndex, len, value, comp)`. Lengths
are natural numbers here, so the test `secondChild == (len - 2) / 2` carries
`2 ≤ len`, which the signed arithmetic of the library implies. -/
def adjustHeap {α : Type} [Inhabited α] (comp : α → α → Bool) (v : List α)
    (first holeIndex len : Nat) (value : α) : List α :=
  let r := adjustHeapLoop comp first len len v holeIndex holeIndex
  let v1 := r.1
  let hole1 := r.2.1
  let secondChild := r.2.2
  if len % 2 = 0 ∧ 2 ≤ len ∧ secondChild = (len - 2) / 2 then
    let c := 2 * (secondChild + 1)
    pushHeap comp first len (v1.set (first + hole1) (v1.getD (first + (c - 1)) default))
      (c - 1) holeIndex value
  else pushHeap comp first len v1 hole1 holeIndex value

/-- The loop of `__make_heap` from `parent` down to 0. -/
def makeHeapLoop {α : Type} [Inhabited α] (comp : α → α → Bool) (first len : Nat) :
    Nat → List α → List α
  | 0, v => adjustHeap comp v first 0 len (v.getD first default)
  | parent + 1, v =>
    makeHeapLoop comp first len parent
      (adjustHeap comp v first (parent + 1) len (v.getD (first + (parent + 1)) default))

/-- The helper `__make_heap(first, last, comp)`. -/
def makeHeap {α : Type} [Inhabited α] (comp : α → α → Bool) (v : List α)
    (first last : Nat) : List α :=
  if last - first < 2 then v
  else makeHeapLoop comp first (last - first) ((last - first - 2) / 2) v

/-- The helper `__pop_heap(first, last, result, comp)`. -/
def popHeap {α : Type} [Inhabited α] (comp : α → α → Bool) (v : List α)
    (first last result : Nat) : List α :=
  let value := v.getD result default
  adjustHeap comp (v.set result (v.getD first default)) first 0 (last - first) value

/-- The helper `__sort_heap(first, last, comp)`; the first argument bounds the
number of rounds. -/
def sortHeap {α : Type} [Inhabited α] (comp : α → α → Bool) (first : Nat) :
    Nat → List α → Nat → List α
  | 0, v, _ => v
  | fuel + 1, v, last =>
    if last - first > 1 then sortHeap comp first fuel (popHeap comp v first (last - 1) (last - 1)) (last - 1)
    else v

/-- The call `__partial_sort(first, last, last, comp)` of `__introsort_loop`:
with the middle at the end `__heap_select` only makes the heap, then
`__sort_heap` sorts it. -/
def partialSort {α : Type} [Inhabited α] (comp : α → α → Bool) (v : List α)
    (first last : Nat) : List α :=
  sortHeap comp first (last - first) (makeHeap comp v first last) last

/-- The helper `__introsort_loop(first, last, depth_limit, comp)`. Each round of
its `while` loop lowers the depth limit by one, recurses on the upper part and
goes on with the lower part. -/
def introsortLoop {α : Type} [Inhabited α] (comp : α → α → Bool) :
    Nat → List α → Nat → Nat → List α
  | 0, v, first, last =>
    if last - first > 16 then partialSort comp v first last else v
  | depth + 1, v, first, last =>
    if last - first > 16 then
      let r := unguardedPartitionPivot comp v first last
      let v1 := introsortLoop comp depth r.1 r.2 last
      introsortLoop comp depth v1 first r.2
    else v

/-- The helper `std::__lg(n)`: the position of the highest set bit; the first
argument bounds the number of halvings. -/
def lg : Nat → Nat → Nat
  | 0, _ => 0
  | fuel + 1, n => if n < 2 then 0 else lg fuel (n / 2) + 1

/-- The call `std::sort(first, last, comp)` on a whole vector, as the C++
library in use implements it (`__sort` in `bits/stl_algo.h`): introsort down to
ranges of 16 elements, then insertion sort. -/
def stdSort {α : Type} [Inhabited α] (comp : α → α → Bool) (v : List α) : List α :=
  if v.length = 0 then v
  else
    finalInsertionSort comp (introsortLoop comp (lg v.length v.length * 2) v 0 v.length)
      0 v.length

/-! ## updateDirectory -/

/-- The first loop of `updateDirectory`:
`for (it = begin; it != end; ++it) if (!QFile::exists((*it)->path())) it = --erase(it);`.
The iterator is the integer offset from `begin()`; `erase` returns the same
offset, the decrement takes it one back (to `-1` for the first element) and
the increment of the loop brings it to the element that followed the erased
one. At the loop head `0 ≤ it ≤ end`, so `it != end` reads `it < end`. -/
def pruneLoop (host : Host) (it : Int) (modules : List PythonModuleV1) :
    List PythonModuleV1 :=
  if h : 0 ≤ it ∧ it < modules.length then
    if !host.fileExists (modules[it.toNat]).path then
      pruneLoop host ((it - 1) + 1) (modules.eraseIdx it.toNat)
    else
      pruneLoop host (it + 1) modules
  else modules
termination_by modules.length - it.toNat
decreasing_by
  all_goals simp_wf
  · have h1 : it.toNat < modules.length := by omega
    rw [List.length_eraseIdx, if_pos h1]
    have h2 : (it - 1 + 1).toNat = it.toNat := by congr 1; omega
    omega
  · have h2 : (it + 1).toNat = it.toNat + 1 := by omega
    omega

/-- The second loop of `updateDirectory` over the entries of the directory:
skip `__pycache__`, skip an id that some module of the collection already
has, otherwise construct the module, append it and load it when its id is in
the enabled list. -/
def addLoop (host : Host) (enabledModules : List String) :
    List String → List PythonModuleV1 → List PythonModuleV1 × List Event
  | [], modules => (modules, [])
  | path :: rest, modules =>
    let id := host.completeBaseName path
    if id = "__pycache__" then
      addLoop host enabledModules rest modules
    else if modules.any (fun rhs => id == rhs.id) then
      addLoop host enabledModules rest modules
    else
      let module := PythonModuleV1.create host path
      if enabledModules.contains module.id then
        let r := addLoop host enabledModules rest (modules ++ [PythonModuleV1.load host module])
        (r.1, Event.load modules.length :: r.2)
      else
        addLoop host enabledModules rest (modules ++ [module])

/-- The comparator handed to `std::sort`:
`0 > lhs->name().localeAwareCompare(rhs->name())`. -/
def nameLess (host : Host) (lhs rhs : PythonModuleV1) : Bool :=
  decide (0 > host.localeAwareCompare lhs.name rhs.name)

/-- The member `Extension::updateDirectory`; the call of `std::sort` is the
one of the host's library. -/
def updateDirectory (host : Host) (ext : Extension) (path : String) :
    Extension × List Event :=
  let pruned := pruneLoop host 0 ext.d.modules
  let added := addLoop host ext.d.enabledModules (host.entries path) pruned
  let sorted := host.sort (nameLess host) added.1
  ({ ext with d := { ext.d with modules := sorted } }, added.2 ++ [Event.modulesChanged])

/-! ## Properties used in the statements -/

/-- Tells whether every module call in a sequence of events happens while
`pythonMutex` is held and the mutex is free at the end; `held` is the state of
the mutex before the first event. -/
def serialized : Bool → List Event → Bool
  | held, [] => !held
  | held, Event.lock :: es => !held && serialized true es
  | held, Event.unlock :: es => held && serialized false es
  | held, Event.load _ :: es => held && serialized held es
  | held, Event.unload _ :: es => held && serialized held es
  | held, Event.handleQuery _ _ :: es => held && serialized held es
  | held, Event.setValue _ _ :: es => serialized held es
  | held, Event.modulesChanged :: es => serialized held es

/-- A directory listing is consistent with the existence test: every entry the
iterator yields for `path` exists. -/
def ListingExists (host : Host) (path : String) : Prop :=
  ∀ p ∈ host.entries path, host.fileExists p = true

/-- The comparison is a collation order: swapping the arguments swaps the
sign, and "not greater" is transitive. -/
structure Collation (cmp : String → String → Int) : Prop where
  swap : ∀ a b, cmp a b < 0 ↔ 0 < cmp b a
  trans : ∀ a b c, cmp a b ≤ 0 → cmp b c ≤ 0 → cmp a c ≤ 0

/-- The requirement of `std::sort` on its comparator, a strict weak ordering:
no two elements are less than each other, and "not less" is transitive. -/
structure StrictWeakOrdering {α : Type} (comp : α → α → Bool) : Prop where
  asymm : ∀ a b, comp a b = true → comp b a = false
  notLessTrans : ∀ a b c, comp a b = false → comp b c = false → comp a c = false

/-- What the C++ standard promises of `std::sort`, and all it promises: the
result is a rearrangement of the range, and for a strict weak ordering no
element of the result is less than an element before it. The order of elements
that the comparator does not tell apart is left open. -/
structure StdSort (host : Host) : Prop where
  perm : ∀ comp l, (host.sort comp l).Perm l
  sorted : ∀ comp l, StrictWeakOrdering comp →
    List.Pairwise (fun a b => comp b a = false) (host.sort comp l)

/-! ## A concrete host and concrete collections -/

/-- The base name of a path without its last extension, as
`QFileInfo::completeBaseName` computes it: the file name is what follows the
last slash, and the result is the file name up to its last dot. -/
def completeBaseName (path : String) : String :=
  let file := path.data.foldl (fun acc c => if c = '/' then [] else acc ++ [c]) []
  match file.reverse.dropWhile (fun c => c != '.') with
  | [] => String.mk file
  | _ :: rest => String.mk rest.reverse

/-- Code points of a string. -/
def codePoints (s : String) : List Nat := s.data.map Char.toNat

/-- Comparison in the C locale: lexicographic by code point, with the sign
convention of `localeAwareCompare`. -/
def codePointCompare (a b : String) : Int :=
  if codePoints a < codePoints b then -1
  else if codePoints b < codePoints a then 1
  else 0

/-- A host whose modules directory `/data/modules` holds `foo.py`, a
`__pycache__` directory, `bar.py` and a directory `foo`. `foo` declares no
trigger, `bar` the trigger `b `; the handler of a module named `veto` leaves
the query not valid, every other handler leaves the query as it is. Names are
compared by code point and sorted by the algorithm of the library. -/
def demoHost : Host :=
  { fileExists := fun p =>
      ["/data/modules", "/data/modules/foo.py", "/data/modules/__pycache__",
       "/data/modules/bar.py", "/data/modules/foo"].contains p
    entries := fun dir =>
      if dir = "/data/modules" then
        ["/data/modules/foo.py", "/data/modules/__pycache__",
         "/data/modules/bar.py", "/data/modules/foo"]
      else []
    completeBaseName := completeBaseName
    localeAwareCompare := codePointCompare
    sort := stdSort
    executeModuleCode := fun p =>
      if p = "/data/modules/foo.py" then Except.ok { name := "foo", trigger := "" }
      else if p = "/data/modules/bar.py" then Except.ok { name := "bar", trigger := "b " }
      else Except.error "ImportError"
    invokeCallable := fun m q =>
      if m.id = "veto" then { q with isValid := false } else q }

/-- The host `demoHost` with plain insertion sort for `std::sort`; this sort
meets `StdSort` on every input, and on the collections of the examples it
returns what the algorithm of the library returns. -/
def insertionHost : Host :=
  { demoHost with sort := fun comp l => l.insertionSort (fun a b => comp b a = false) }

/-- The entries of the directory `/data/many`: `calc.py`, `calc2.py` and
sixteen more modules. -/
def manyEntries : List String :=
  ["/data/many/calc.py", "/data/many/calc2.py", "/data/many/m03.py", "/data/many/m04.py",
   "/data/many/m05.py", "/data/many/m06.py", "/data/many/m07.py", "/data/many/m08.py",
   "/data/many/m09.py", "/data/many/m10.py", "/data/many/m11.py", "/data/many/m12.py",
   "/data/many/m13.py", "/data/many/m14.py", "/data/many/m15.py", "/data/many/m16.py",
   "/data/many/m17.py", "/data/many/m18.py"]

/-- A host whose modules directory `/data/many` holds eighteen modules, of
which `calc` and `calc2` both declare the display name `Calculator`. -/
def manyHost : Host :=
  { demoHost with
    fileExists := fun p => manyEntries.contains p
    entries := fun dir => if dir = "/data/many" then manyEntries else []
    executeModuleCode := fun p =>
      if p = "/data/many/calc.py" ∨ p = "/data/many/calc2.py" then
        Except.ok { name := "Calculator", trigger := "" }
      else Except.error "ImportError" }

/-- A loaded module with the given id and trigger. -/
def loadedModule (id trigger : String) : PythonModuleV1 :=
  { path := "/data/modules/" ++ id ++ ".py", id := id, name := id, trigger := trigger,
    state := State.Loaded, lastError := none }

/-- An extension holding the given modules with the given enabled list. -/
def extensionOf (modules : List PythonModuleV1) (enabled : List String) : Extension :=
  { d := { modules := modules, enabledModules := enabled }, settings := enabled }

/-- An untriggered, valid request. -/
def untriggeredQuery : Query :=
  { string := "y", trigger := "", isTriggered := false, isValid := true }

/-- A valid request with the given trigger. -/
def triggeredQuery (trigger : String) : Query :=
  { string := "x", trigger := trigger, isTriggered := true, isValid := true }

/-- Renumbers the module of a handler event after a module was put at
position `n`: positions from `n` on move up by one. -/
def renumber (n : Nat) : Event → Event
  | Event.handleQuery k v => Event.handleQuery (if n ≤ k then k + 1 else k) v
  | e => e

end Python

namespace Python

/-! ## Module operations keep identity -/

theorem PythonModuleV1.load_id (host : Host) (m : PythonModuleV1) :
    (PythonModuleV1.load host m).id = m.id := by
  unfold PythonModuleV1.load
  split
  · rfl
  · split <;> rfl

theorem PythonModuleV1.load_path (host : Host) (m : PythonModuleV1) :
    (PythonModuleV1.load host m).path = m.path := by
  unfold PythonModuleV1.load
  split
  · rfl
  · split <;> rfl

theorem PythonModuleV1.unload_id (m : PythonModuleV1) :
    (PythonModuleV1.unload m).id = m.id := by
  unfold PythonModuleV1.unload
  split <;> rfl

theorem PythonModuleV1.load_state_of_ok (host : Host) (m : PythonModuleV1) (md : Metadata)
    (h : host.executeModuleCode m.path = Except.ok md) :
    (PythonModuleV1.load host m).state = State.Loaded := by
  unfold PythonModuleV1.load
  split
  · assumption
  · rw [h]

/-! ## The loops of handleQuery -/

theorem triggeredLoop_none (host : Host) (d : List String) (query : Query) (idx : Nat)
    (l : List PythonModuleV1) (h : ∀ m ∈ l, triggeredMatch d query m = false) :
    triggeredLoop host d query idx l = (query, []) := by
  induction l generalizing idx with
  | nil => rfl
  | cons m rest ih =>
    have hm : triggeredMatch d query m = false := h m (List.mem_cons_self _ _)
    simp only [triggeredLoop, hm, Bool.false_eq_true, if_false]
    exact ih (idx + 1) (fun x hx => h x (List.mem_cons_of_mem _ hx))

theorem triggeredLoop_first (host : Host) (d : List String) (query : Query) (idx i : Nat)
    (l : List PythonModuleV1) (m : PythonModuleV1) (hi : l[i]? = some m)
    (hm : triggeredMatch d query m = true)
    (hbefore : ∀ k x, k < i → l[k]? = some x → triggeredMatch d query x = false) :
    triggeredLoop host d query idx l
      = (host.invokeCallable m query,
         [Event.handleQuery (idx + i) (host.invokeCallable m query).isValid]) := by
  induction l generalizing idx i with
  | nil => simp at hi
  | cons a rest ih =>
    cases i with
    | zero =>
      simp only [List.getElem?_cons_zero, Option.some.injEq] at hi
      subst hi
      simp [triggeredLoop, hm]
    | succ j =>
      have ha : triggeredMatch d query a = false :=
        hbefore 0 a (Nat.succ_pos j) (by simp)
      simp only [List.getElem?_cons_succ] at hi
      simp only [triggeredLoop, ha, Bool.false_eq_true, if_false]
      rw [ih (idx + 1) j hi (fun k x hk hx => hbefore (k + 1) x (by omega) (by simpa using hx))]
      have : idx + 1 + j = idx + (j + 1) := by omega
      rw [this]

theorem untriggeredLoop_sound (host : Host) (d : List String) (idx : Nat)
    (l : List PythonModuleV1) (query : Query) (k : Nat) (v : Bool)
    (h : Event.handleQuery k v ∈ (untriggeredLoop host d idx l query).2) :
    idx ≤ k ∧ ∃ m, l[k - idx]? = some m ∧ untriggeredMatch d m = true := by
  induction l generalizing idx query with
  | nil => simp [untriggeredLoop] at h
  | cons a rest ih =>
    unfold untriggeredLoop at h
    by_cases ha : untriggeredMatch d a = true
    · simp only [ha, if_true] at h
      by_cases hv : (host.invokeCallable a query).isValid = true
      · simp only [hv, Bool.not_true, Bool.false_eq_true, if_false, List.mem_cons] at h
        rcases h with h | h
        · injection h with h1 h2
          subst h1
          exact ⟨le_refl _, a, by simp, ha⟩
        · obtain ⟨h1, m, h2, h3⟩ := ih (idx + 1) _ h
          refine ⟨by omega, m, ?_, h3⟩
          have : k - idx = (k - (idx + 1)) + 1 := by omega
          rw [this, List.getElem?_cons_succ]
          exact h2
      · simp only [hv, Bool.not_false, if_true, List.mem_singleton] at h
        injection h with h1 h2
        subst h1
        exact ⟨le_refl _, a, by simp, ha⟩
    · simp only [ha, if_false] at h
      obtain ⟨h1, m, h2, h3⟩ := ih (idx + 1) _ h
      refine ⟨by omega, m, ?_, h3⟩
      have : k - idx = (k - (idx + 1)) + 1 := by omega
      rw [this, List.getElem?_cons_succ]
      exact h2

theorem untriggeredLoop_stops (host : Host) (d : List String) (idx : Nat)
    (l : List PythonModuleV1) (query : Query) (i j : Nat) (v : Bool) (hij : i < j)
    (h : Event.handleQuery i false ∈ (untriggeredLoop host d idx l query).2) :
    Event.handleQuery j v ∉ (untriggeredLoop host d idx l query).2 := by
  induction l generalizing idx query with
  | nil => simp [untriggeredLoop] at h
  | cons a rest ih =>
    unfold untriggeredLoop at h ⊢
    by_cases ha : untriggeredMatch d a = true
    · simp only [ha, if_true] at h ⊢
      by_cases hv : (host.invokeCallable a query).isValid = true
      · simp only [hv, Bool.not_true, Bool.false_eq_true, if_false, List.mem_cons] at h ⊢
        rcases h with h | h
        · injection h with h1 h2
          cases h2
        · have hi := (untriggeredLoop_sound host d (idx + 1) rest _ i false h).1
          intro hj
          rcases hj with hj | hj
          · injection hj with h1 h2
            omega
          · exact ih (idx + 1) _ h hj
      · simp only [hv, Bool.not_false, if_true, List.mem_singleton] at h ⊢
        injection h with h1 h2
        intro hj
        injection hj with h3 h4
        omega
    · simp only [ha, if_false] at h ⊢
      exact ih (idx + 1) _ h

theorem untriggeredLoop_continues (host : Host) (d : List String) (idx : Nat)
    (l : List PythonModuleV1) (query : Query) (j : Nat) (b : PythonModuleV1)
    (hidx : idx ≤ j) (hj : l[j - idx]? = some b) (hb : untriggeredMatch d b = true)
    (hvalid : ∀ k v, k < j →
      Event.handleQuery k v ∈ (untriggeredLoop host d idx l query).2 → v = true) :
    ∃ v, Event.handleQuery j v ∈ (untriggeredLoop host d idx l query).2 := by
  induction l generalizing idx query with
  | nil => simp at hj
  | cons a rest ih =>
    unfold untriggeredLoop at hvalid ⊢
    by_cases hjeq : j = idx
    · subst hjeq
      simp only [Nat.sub_self, List.getElem?_cons_zero, Option.some.injEq] at hj
      subst hj
      simp only [hb, if_true]
      by_cases hv : (host.invokeCallable a query).isValid = true
      · exact ⟨true, by simp [hv]⟩
      · exact ⟨false, by simp [hv]⟩
    · have hlt : idx < j := by omega
      have hsub : j - idx = (j - (idx + 1)) + 1 := by omega
      rw [hsub, List.getElem?_cons_succ] at hj
      by_cases ha : untriggeredMatch d a = true
      · simp only [ha, if_true] at hvalid ⊢
        by_cases hv : (host.invokeCallable a query).isValid = true
        · simp only [hv, Bool.not_true, Bool.false_eq_true, if_false, List.mem_cons] at hvalid ⊢
          obtain ⟨w, hw⟩ := ih (idx + 1) _ (by omega) hj
            (fun k v hk hmem => hvalid k v hk (Or.inr hmem))
          exact ⟨w, Or.inr hw⟩
        · simp only [hv, Bool.not_false, if_true, List.mem_singleton] at hvalid
          have := hvalid idx false hlt rfl
          cases this
      · simp only [ha, if_false] at hvalid ⊢
        exact ih (idx + 1) _ (by omega) hj hvalid

theorem triggeredLoop_sound (host : Host) (d : List String) (query : Query) (idx : Nat)
    (l : List PythonModuleV1) (k : Nat) (v : Bool)
    (h : Event.handleQuery k v ∈ (triggeredLoop host d query idx l).2) :
    idx ≤ k ∧ ∃ m, l[k - idx]? = some m ∧ triggeredMatch d query m = true := by
  induction l generalizing idx with
  | nil => simp [triggeredLoop] at h
  | cons a rest ih =>
    unfold triggeredLoop at h
    by_cases ha : triggeredMatch d query a = true
    · simp only [ha, if_true, List.mem_singleton] at h
      injection h with h1 h2
      subst h1
      exact ⟨le_refl _, a, by simp, ha⟩
    · simp only [ha, if_false] at h
      obtain ⟨h1, m, h2, h3⟩ := ih (idx + 1) h
      refine ⟨by omega, m, ?_, h3⟩
      have : k - idx = (k - (idx + 1)) + 1 := by omega
      rw [this, List.getElem?_cons_succ]
      exact h2

theorem mem_handleQuery_events (host : Host) (ext : Extension) (query : Query)
    (k : Nat) (v : Bool) :
    Event.handleQuery k v ∈ (handleQuery host ext query).2.2 ↔
      Event.handleQuery k v ∈
        (if query.isTriggered then triggeredLoop host ext.d.enabledModules query 0 ext.d.modules
         else untriggeredLoop host ext.d.enabledModules 0 ext.d.modules query).2 := by
  simp [handleQuery]

theorem renumber_handleQuery_of_le (n k : Nat) (v : Bool) (h : n ≤ k) :
    renumber n (Event.handleQuery k v) = Event.handleQuery (k + 1) v := by
  simp [renumber, h]

theorem renumber_handleQuery_of_lt (n k : Nat) (v : Bool) (h : k < n) :
    renumber n (Event.handleQuery k v) = Event.handleQuery k v := by
  have : ¬ n ≤ k := by omega
  simp [renumber, this]

theorem triggeredLoop_shift (host : Host) (d : List String) (query : Query) (n idx : Nat)
    (l : List PythonModuleV1) (hn : n ≤ idx) :
    triggeredLoop host d query (idx + 1) l
      = ((triggeredLoop host d query idx l).1,
         (triggeredLoop host d query idx l).2.map (renumber n)) := by
  induction l generalizing idx with
  | nil => rfl
  | cons a rest ih =>
    unfold triggeredLoop
    by_cases ha : triggeredMatch d query a = true
    · simp [ha, renumber_handleQuery_of_le n idx _ hn]
    · simp only [ha, if_false]
      exact ih (idx + 1) (by omega)

theorem untriggeredLoop_shift (host : Host) (d : List String) (n idx : Nat)
    (l : List PythonModuleV1) (query : Query) (hn : n ≤ idx) :
    untriggeredLoop host d (idx + 1) l query
      = ((untriggeredLoop host d idx l query).1,
         (untriggeredLoop host d idx l query).2.map (renumber n)) := by
  induction l generalizing idx query with
  | nil => rfl
  | cons a rest ih =>
    unfold untriggeredLoop
    by_cases ha : untriggeredMatch d a = true
    · simp only [ha, if_true]
      by_cases hv : (host.invokeCallable a query).isValid = true
      · simp only [hv, Bool.not_true, Bool.false_eq_true, if_false, List.map_cons,
          renumber_handleQuery_of_le n idx _ hn]
        rw [ih (idx + 1) _ (by omega)]
      · simp [hv, renumber_handleQuery_of_le n idx _ hn]
    · simp only [ha, if_false]
      exact ih (idx + 1) _ (by omega)

theorem triggeredLoop_skip (host : Host) (d : List String) (query : Query) (idx : Nat)
    (pre post : List PythonModuleV1) (m : PythonModuleV1)
    (hm : triggeredMatch d query m = false) :
    triggeredLoop host d query idx (pre ++ m :: post)
      = ((triggeredLoop host d query idx (pre ++ post)).1,
         (triggeredLoop host d query idx (pre ++ post)).2.map (renumber (idx + pre.length))) := by
  induction pre generalizing idx with
  | nil =>
    simp only [List.nil_append, List.length_nil, Nat.add_zero]
    rw [triggeredLoop]
    simp only [hm, Bool.false_eq_true, if_false]
    exact triggeredLoop_shift host d query idx idx post (le_refl _)
  | cons a rest ih =>
    simp only [List.cons_append, List.length_cons]
    unfold triggeredLoop
    by_cases ha : triggeredMatch d query a = true
    · simp [ha, renumber_handleQuery_of_lt (idx + (rest.length + 1)) idx _ (by omega)]
    · simp only [ha, Bool.false_eq_true, if_false]
      rw [ih (idx + 1)]
      have : idx + 1 + rest.length = idx + (rest.length + 1) := by omega
      rw [this]

theorem untriggeredLoop_skip (host : Host) (d : List String) (idx : Nat)
    (pre post : List PythonModuleV1) (m : PythonModuleV1) (query : Query)
    (hm : untriggeredMatch d m = false) :
    untriggeredLoop host d idx (pre ++ m :: post) query
      = ((untriggeredLoop host d idx (pre ++ post) query).1,
         (untriggeredLoop host d idx (pre ++ post) query).2.map
           (renumber (idx + pre.length))) := by
  induction pre generalizing idx query with
  | nil =>
    simp only [List.nil_append, List.length_nil, Nat.add_zero]
    rw [untriggeredLoop]
    simp only [hm, Bool.false_eq_true, if_false]
    exact untriggeredLoop_shift host d idx idx post query (le_refl _)
  | cons a rest ih =>
    simp only [List.cons_append, List.length_cons]
    unfold untriggeredLoop
    have hidx : idx + 1 + rest.length = idx + (rest.length + 1) := by omega
    by_cases ha : untriggeredMatch d a = true
    · simp only [ha, if_true]
      by_cases hv : (host.invokeCallable a query).isValid = true
      · simp only [hv, Bool.not_true, Bool.false_eq_true, if_false, List.map_cons,
          renumber_handleQuery_of_lt (idx + (rest.length + 1)) idx _ (by omega)]
        rw [ih (idx + 1), hidx]
      · simp [hv, renumber_handleQuery_of_lt (idx + (rest.length + 1)) idx _ (by omega)]
    · simp only [ha, Bool.false_eq_true, if_false]
      rw [ih (idx + 1), hidx]

theorem untriggeredLoop_offered_before (host : Host) (d : List String) (idx : Nat)
    (l : List PythonModuleV1) (query : Query) (i j : Nat) (v : Bool) (a : PythonModuleV1)
    (hidx : idx ≤ i) (hij : i < j) (hi : l[i - idx]? = some a)
    (ha : untriggeredMatch d a = true)
    (h : Event.handleQuery j v ∈ (untriggeredLoop host d idx l query).2) :
    Event.handleQuery i true ∈ (untriggeredLoop host d idx l query).2 := by
  induction l generalizing idx query with
  | nil => simp at hi
  | cons x rest ih =>
    unfold untriggeredLoop at h ⊢
    by_cases hieq : i = idx
    · subst hieq
      simp only [Nat.sub_self, List.getElem?_cons_zero, Option.some.injEq] at hi
      subst hi
      simp only [ha, if_true] at h ⊢
      by_cases hv : (host.invokeCallable x query).isValid = true
      · simp [hv]
      · simp only [hv, Bool.not_false, if_true, List.mem_singleton] at h
        injection h with h1 h2
        omega
    · have hsub : i - idx = (i - (idx + 1)) + 1 := by omega
      rw [hsub, List.getElem?_cons_succ] at hi
      by_cases hx : untriggeredMatch d x = true
      · simp only [hx, if_true] at h ⊢
        by_cases hv : (host.invokeCallable x query).isValid = true
        · simp only [hv, Bool.not_true, Bool.false_eq_true, if_false, List.mem_cons] at h ⊢
          rcases h with h | h
          · injection h with h1 h2
            omega
          · exact Or.inr (ih (idx + 1) _ (by omega) hi h)
        · simp only [hv, Bool.not_false, if_true, List.mem_singleton] at h
          injection h with h1 h2
          omega
      · simp only [hx, Bool.false_eq_true, if_false] at h ⊢
        exact ih (idx + 1) _ (by omega) hi h

/-! ## Claims on handleQuery -/

/-- C1, as the claim states it, fails. With two enabled, loaded modules without
trigger whose handlers leave the untriggered request valid, the second handler
is invoked after the first one; and when the first handler leaves the request
not valid, the second handler is not invoked. -/
theorem handleQuery_untriggered_valid_goes_on :
    (handleQuery demoHost
        (extensionOf [loadedModule "foo" "", loadedModule "zap" ""] ["foo", "zap"])
        untriggeredQuery).2.2
      = [Event.lock, Event.handleQuery 0 true, Event.handleQuery 1 true, Event.unlock]
    ∧ (handleQuery demoHost
        (extensionOf [loadedModule "veto" "", loadedModule "foo" ""] ["veto", "foo"])
        untriggeredQuery).2.2
      = [Event.lock, Event.handleQuery 0 false, Event.unlock] := by
  decide

/-- C1, amended. For an untriggered request and two enabled, loaded modules
without trigger, A at position `i` before B at position `j`: if A's handler
leaves the request not valid, B's handler is never invoked; if every handler
invoked before B leaves the request valid, B's handler is invoked; and whenever
B's handler is invoked, A's handler was invoked and left the request valid. -/
theorem handleQuery_untriggered_stops_at_first_invalid (host : Host) (ext : Extension)
    (query : Query) (i j : Nat) (a b : PythonModuleV1)
    (hq : query.isTriggered = false) (hij : i < j)
    (ha : ext.d.modules[i]? = some a) (hb : ext.d.modules[j]? = some b)
    (hma : untriggeredMatch ext.d.enabledModules a = true)
    (hmb : untriggeredMatch ext.d.enabledModules b = true) :
    (Event.handleQuery i false ∈ (handleQuery host ext query).2.2 →
      ∀ v, Event.handleQuery j v ∉ (handleQuery host ext query).2.2)
    ∧ ((∀ k v, k < j → Event.handleQuery k v ∈ (handleQuery host ext query).2.2 → v = true) →
      ∃ v, Event.handleQuery j v ∈ (handleQuery host ext query).2.2)
    ∧ ((∃ v, Event.handleQuery j v ∈ (handleQuery host ext query).2.2) →
      Event.handleQuery i true ∈ (handleQuery host ext query).2.2) := by
  simp only [mem_handleQuery_events, hq, Bool.false_eq_true, if_false]
  refine ⟨?_, ?_, ?_⟩
  · intro h v
    exact untriggeredLoop_stops host _ 0 _ query i j v hij h
  · intro h
    exact untriggeredLoop_continues host _ 0 _ query j b (Nat.zero_le _) (by simpa using hb) hmb h
  · rintro ⟨v, hv⟩
    exact untriggeredLoop_offered_before host _ 0 _ query i j v a (Nat.zero_le _) hij
      (by simpa using ha) hma hv

/-- C1, amended, at a concrete input: `veto` before `foo`, both enabled, loaded
and without trigger. -/
theorem handleQuery_untriggered_stops_at_first_invalid_witness :
    untriggeredQuery.isTriggered = false
    ∧ (Event.handleQuery 0 false ∈ (handleQuery demoHost
          (extensionOf [loadedModule "veto" "", loadedModule "foo" ""] ["veto", "foo"])
          untriggeredQuery).2.2 →
        ∀ v, Event.handleQuery 1 v ∉ (handleQuery demoHost
          (extensionOf [loadedModule "veto" "", loadedModule "foo" ""] ["veto", "foo"])
          untriggeredQuery).2.2) :=
  ⟨rfl, (handleQuery_untriggered_stops_at_first_invalid demoHost
    (extensionOf [loadedModule "veto" "", loadedModule "foo" ""] ["veto", "foo"])
    untriggeredQuery 0 1 (loadedModule "veto" "") (loadedModule "foo" "")
    rfl (by decide) rfl rfl (by decide) (by decide)).1⟩

/-- C2. For a triggered request, `handleQuery` invokes exactly the handler of
the first module in collection order that is enabled, loaded and whose trigger
equals the trigger of the request, and returns; when no module matches, no
handler is invoked. -/
theorem handleQuery_triggered_first_match_only (host : Host) (ext : Extension)
    (query : Query) (hq : query.isTriggered = true) :
    (∀ i m, ext.d.modules[i]? = some m →
      triggeredMatch ext.d.enabledModules query m = true →
      (∀ k x, k < i → ext.d.modules[k]? = some x →
        triggeredMatch ext.d.enabledModules query x = false) →
      handleQuery host ext query
        = (ext, host.invokeCallable m query,
           [Event.lock, Event.handleQuery i (host.invokeCallable m query).isValid,
            Event.unlock]))
    ∧ ((∀ m ∈ ext.d.modules, triggeredMatch ext.d.enabledModules query m = false) →
      handleQuery host ext query = (ext, query, [Event.lock, Event.unlock])) := by
  constructor
  · intro i m hi hm hbefore
    simp only [handleQuery, hq, if_true]
    rw [triggeredLoop_first host _ query 0 i _ m hi hm hbefore]
    simp
  · intro h
    simp only [handleQuery, hq, if_true]
    rw [triggeredLoop_none host _ query 0 _ h]
    simp

/-- C2 at a concrete input: two enabled, loaded modules with the triggers
`t1 ` and `t2 `; the request with trigger `t1 ` reaches the first module only,
and a request with a trigger no module has reaches none. -/
theorem handleQuery_triggered_first_match_only_witness :
    (triggeredQuery "t1 ").isTriggered = true
    ∧ handleQuery demoHost
        (extensionOf [loadedModule "one" "t1 ", loadedModule "two" "t2 "] ["one", "two"])
        (triggeredQuery "t1 ")
      = (extensionOf [loadedModule "one" "t1 ", loadedModule "two" "t2 "] ["one", "two"],
         triggeredQuery "t1 ",
         [Event.lock, Event.handleQuery 0 true, Event.unlock])
    ∧ handleQuery demoHost
        (extensionOf [loadedModule "one" "t1 ", loadedModule "two" "t2 "] ["one", "two"])
        (triggeredQuery "t3 ")
      = (extensionOf [loadedModule "one" "t1 ", loadedModule "two" "t2 "] ["one", "two"],
         triggeredQuery "t3 ", [Event.lock, Event.unlock]) :=
  ⟨rfl,
   (handleQuery_triggered_first_match_only demoHost
      (extensionOf [loadedModule "one" "t1 ", loadedModule "two" "t2 "] ["one", "two"])
      (triggeredQuery "t1 ") rfl).1 0 (loadedModule "one" "t1 ") rfl (by decide)
      (fun k x hk _ => absurd hk (Nat.not_lt_zero k)),
   (handleQuery_triggered_first_match_only demoHost
      (extensionOf [loadedModule "one" "t1 ", loadedModule "two" "t2 "] ["one", "two"])
      (triggeredQuery "t3 ") rfl).2 (by decide)⟩

theorem triggeredMatch_false_of_not_eligible (d : List String) (query : Query)
    (m : PythonModuleV1) (h : d.contains m.id = false ∨ m.state ≠ State.Loaded) :
    triggeredMatch d query m = false := by
  unfold triggeredMatch
  rcases h with h | h
  · rw [h]; rfl
  · simp [h]

theorem untriggeredMatch_false_of_not_eligible (d : List String)
    (m : PythonModuleV1) (h : d.contains m.id = false ∨ m.state ≠ State.Loaded) :
    untriggeredMatch d m = false := by
  unfold untriggeredMatch
  rcases h with h | h
  · rw [h]; rfl
  · simp [h]

/-- C8. Every module whose handler `handleQuery` invokes is in the enabled
list and `Loaded`; for an untriggered request its trigger is empty, for a
triggered one it equals the trigger of the request. A module that is not in
the enabled list or not `Loaded` is passed over: the request ends as it does
without that module in the collection, and the same handlers run (positions
behind the module counted one higher). -/
theorem handleQuery_invokes_only_enabled_loaded (host : Host) (ext : Extension)
    (query : Query) :
    (∀ k v, Event.handleQuery k v ∈ (handleQuery host ext query).2.2 →
      ∃ m, ext.d.modules[k]? = some m
        ∧ ext.d.enabledModules.contains m.id = true
        ∧ m.state = State.Loaded
        ∧ (query.isTriggered = false → m.trigger.isEmpty = true)
        ∧ (query.isTriggered = true → m.trigger = query.trigger))
    ∧ (∀ pre m post, ext.d.modules = pre ++ m :: post →
      (ext.d.enabledModules.contains m.id = false ∨ m.state ≠ State.Loaded) →
      (handleQuery host ext query).2.1
        = (handleQuery host { ext with d := { ext.d with modules := pre ++ post } } query).2.1
      ∧ (handleQuery host ext query).2.2
        = (handleQuery host { ext with d := { ext.d with modules := pre ++ post } }
            query).2.2.map (renumber pre.length)) := by
  constructor
  · intro k v h
    rw [mem_handleQuery_events] at h
    by_cases hq : query.isTriggered = true
    · simp only [hq, if_true] at h
      obtain ⟨_, m, hm, hmatch⟩ := triggeredLoop_sound host _ query 0 _ k v h
      refine ⟨m, by simpa using hm, ?_⟩
      simp only [triggeredMatch, Bool.and_eq_true, decide_eq_true_eq] at hmatch
      refine ⟨hmatch.1.1, hmatch.1.2, ?_, fun _ => hmatch.2⟩
      intro hf
      rw [hq] at hf
      cases hf
    · simp only [hq, if_false] at h
      obtain ⟨_, m, hm, hmatch⟩ := untriggeredLoop_sound host _ 0 _ query k v h
      refine ⟨m, by simpa using hm, ?_⟩
      simp only [untriggeredMatch, Bool.and_eq_true, decide_eq_true_eq] at hmatch
      exact ⟨hmatch.1.1, hmatch.1.2, fun _ => hmatch.2, fun hf => absurd hf hq⟩
  · intro pre m post hmods hm
    simp only [handleQuery, hmods]
    by_cases hq : query.isTriggered = true
    · simp only [hq, if_true]
      rw [triggeredLoop_skip host _ query 0 pre post m
        (triggeredMatch_false_of_not_eligible _ query m hm)]
      simp [renumber]
    · simp only [hq, if_false]
      rw [untriggeredLoop_skip host _ 0 pre post m query
        (untriggeredMatch_false_of_not_eligible _ m hm)]
      simp [renumber]

/-- C8 at a concrete input: `bar` is enabled but not loaded, `baz` is loaded
but not enabled, `foo` behind them is enabled and loaded; the untriggered
request reaches `foo` at position 2 and nothing else, as it reaches `foo` at
position 1 in the collection without `bar`. -/
theorem handleQuery_invokes_only_enabled_loaded_witness :
    (handleQuery demoHost
        (extensionOf
          [PythonModuleV1.create demoHost "/data/modules/bar.py", loadedModule "baz" "",
           loadedModule "foo" ""] ["bar", "foo"])
        untriggeredQuery).2.2
      = [Event.lock, Event.handleQuery 2 true, Event.unlock]
    ∧ (∃ m, [PythonModuleV1.create demoHost "/data/modules/bar.py", loadedModule "baz" "",
          loadedModule "foo" ""][2]? = some m
        ∧ ["bar", "foo"].contains m.id = true
        ∧ m.state = State.Loaded
        ∧ (untriggeredQuery.isTriggered = false → m.trigger.isEmpty = true)
        ∧ (untriggeredQuery.isTriggered = true → m.trigger = untriggeredQuery.trigger))
    ∧ (handleQuery demoHost
        (extensionOf
          [PythonModuleV1.create demoHost "/data/modules/bar.py", loadedModule "baz" "",
           loadedModule "foo" ""] ["bar", "foo"])
        untriggeredQuery).2.2
      = (handleQuery demoHost
          (extensionOf [loadedModule "baz" "", loadedModule "foo" ""] ["bar", "foo"])
          untriggeredQuery).2.2.map (renumber 0) :=
  ⟨by decide,
   (handleQuery_invokes_only_enabled_loaded demoHost
      (extensionOf
        [PythonModuleV1.create demoHost "/data/modules/bar.py", loadedModule "baz" "",
         loadedModule "foo" ""] ["bar", "foo"])
      untriggeredQuery).1 2 true (by decide),
   ((handleQuery_invokes_only_enabled_loaded demoHost
      (extensionOf
        [PythonModuleV1.create demoHost "/data/modules/bar.py", loadedModule "baz" "",
         loadedModule "foo" ""] ["bar", "foo"])
      untriggeredQuery).2 [] (PythonModuleV1.create demoHost "/data/modules/bar.py")
      [loadedModule "baz" "", loadedModule "foo" ""] rfl (Or.inr (by decide))).2⟩

/-! ## Claims on setEnabled -/

theorem setEnabled_of_some (host : Host) (ext : Extension) (i : Nat) (m : PythonModuleV1)
    (e : Bool) (hm : ext.d.modules[i]? = some m) :
    setEnabled host ext i e
      = ({ d := { modules := ext.d.modules.set i
                    (if e then PythonModuleV1.load host m else PythonModuleV1.unload m),
                  enabledModules :=
                    if e then ext.d.enabledModules ++ [m.id]
                    else ext.d.enabledModules.filter (fun s => s != m.id) }
           settings :=
             if e then ext.d.enabledModules ++ [m.id]
             else ext.d.enabledModules.filter (fun s => s != m.id) },
         [Event.setValue CFG_ENABLEDMODS
            (if e then ext.d.enabledModules ++ [m.id]
             else ext.d.enabledModules.filter (fun s => s != m.id)),
          if e then Event.load i else Event.unload i]) := by
  unfold setEnabled
  rw [hm]

theorem getElem?_set_of_some (l : List PythonModuleV1) (i : Nat) (m x : PythonModuleV1)
    (hm : l[i]? = some m) : (l.set i x)[i]? = some x := by
  have hlt : i < l.length := by
    by_contra hge
    have : l[i]? = none := List.getElem?_eq_none (by omega)
    rw [this] at hm
    cases hm
  simp [List.getElem?_set, hlt]

/-- C3. After `setEnabled(m, e)` the query `isEnabled(m)` returns `e`; the call
invokes `m.load()` and not `m.unload()` when `e` is true, `m.unload()` and not
`m.load()` when `e` is false, and leaves the loaded respectively unloaded
module in place. Hence enabling an `Unloaded` module whose code the runtime
executes without failure ends with the module `Loaded` and enabled. -/
theorem setEnabled_isEnabled_and_loads (host : Host) (ext : Extension) (i : Nat)
    (m : PythonModuleV1) (e : Bool) (hm : ext.d.modules[i]? = some m) :
    isEnabled (setEnabled host ext i e).1 i = e
    ∧ (e = true →
        Event.load i ∈ (setEnabled host ext i e).2
        ∧ Event.unload i ∉ (setEnabled host ext i e).2
        ∧ (setEnabled host ext i e).1.d.modules[i]? = some (PythonModuleV1.load host m))
    ∧ (e = false →
        Event.unload i ∈ (setEnabled host ext i e).2
        ∧ Event.load i ∉ (setEnabled host ext i e).2
        ∧ (setEnabled host ext i e).1.d.modules[i]? = some (PythonModuleV1.unload m))
    ∧ (e = true → m.state = State.Unloaded →
        (∃ md, host.executeModuleCode m.path = Except.ok md) →
        ∃ m1, (setEnabled host ext i e).1.d.modules[i]? = some m1
          ∧ m1.state = State.Loaded
          ∧ isEnabled (setEnabled host ext i e).1 i = true) := by
  rw [setEnabled_of_some host ext i m e hm]
  have hset := fun x => getElem?_set_of_some ext.d.modules i m x hm
  cases e with
  | true =>
    have hen : isEnabled
        { d := { modules := ext.d.modules.set i (PythonModuleV1.load host m),
                 enabledModules := ext.d.enabledModules ++ [m.id] },
          settings := ext.d.enabledModules ++ [m.id] } i = true := by
      simp [isEnabled, hset, PythonModuleV1.load_id]
    refine ⟨by simpa using hen, ?_, ?_, ?_⟩
    · intro _
      simp [hset]
    · intro h
      cases h
    · intro _ _ hok
      obtain ⟨md, hmd⟩ := hok
      exact ⟨PythonModuleV1.load host m, by simp [hset],
        PythonModuleV1.load_state_of_ok host m md hmd, by simpa using hen⟩
  | false =>
    refine ⟨?_, ?_, ?_, ?_⟩
    · simp [isEnabled, hset, PythonModuleV1.unload_id]
    · intro h
      cases h
    · intro _
      simp [hset]
    · intro h
      cases h

/-- C3 at a concrete input: enabling the unloaded module of `foo.py`, whose
code the runtime executes, leaves it loaded and enabled. -/
theorem setEnabled_isEnabled_and_loads_witness :
    (PythonModuleV1.create demoHost "/data/modules/foo.py").state = State.Unloaded
    ∧ ∃ m1, (setEnabled demoHost
          (extensionOf [PythonModuleV1.create demoHost "/data/modules/foo.py"] []) 0
          true).1.d.modules[0]? = some m1
        ∧ m1.state = State.Loaded
        ∧ isEnabled (setEnabled demoHost
            (extensionOf [PythonModuleV1.create demoHost "/data/modules/foo.py"] []) 0
            true).1 0 = true :=
  ⟨rfl,
   (setEnabled_isEnabled_and_loads demoHost
      (extensionOf [PythonModuleV1.create demoHost "/data/modules/foo.py"] []) 0
      (PythonModuleV1.create demoHost "/data/modules/foo.py") true rfl).2.2.2 rfl rfl
      ⟨{ name := "foo", trigger := "" }, rfl⟩⟩

/-- C9, as the claim states it, fails. Enabling the same module twice in a row,
starting from an empty enabled list, leaves its id twice in the persisted
list. -/
theorem setEnabled_twice_repeats_id :
    (extensionOf [PythonModuleV1.create demoHost "/data/modules/foo.py"] []).d.enabledModules.Nodup
    ∧ (setEnabledAll demoHost
        (extensionOf [PythonModuleV1.create demoHost "/data/modules/foo.py"] [])
        [(0, true), (0, true)]).settings = ["foo", "foo"]
    ∧ ¬ (setEnabledAll demoHost
        (extensionOf [PythonModuleV1.create demoHost "/data/modules/foo.py"] [])
        [(0, true), (0, true)]).settings.Nodup := by
  decide

theorem setEnabled_keeps_nodup (host : Host) (ext : Extension) (i : Nat) (e : Bool)
    (hnd : ext.d.enabledModules.Nodup) (hs : ext.settings = ext.d.enabledModules)
    (hguard : (!e || !isEnabled ext i) = true) :
    (setEnabled host ext i e).1.d.enabledModules.Nodup
    ∧ (setEnabled host ext i e).1.settings = (setEnabled host ext i e).1.d.enabledModules := by
  cases hm : ext.d.modules[i]? with
  | none =>
    have : setEnabled host ext i e = (ext, []) := by
      unfold setEnabled
      rw [hm]
    rw [this]
    exact ⟨hnd, hs⟩
  | some m =>
    rw [setEnabled_of_some host ext i m e hm]
    cases e with
    | true =>
      refine ⟨?_, rfl⟩
      have hnot : m.id ∉ ext.d.enabledModules := by
        simpa [isEnabled, hm] using hguard
      simpa [List.nodup_append, hnd] using hnot
    | false =>
      exact ⟨List.Nodup.filter _ hnd, rfl⟩

/-- C9, amended. Starting from an enabled list with no repeated id that is the
persisted one, after every sequence of `setEnabled` calls in which
`setEnabled(m, true)` is only issued for a module that `isEnabled` reports as
not enabled at that moment, the persisted enabled list is the list in memory
and contains each module id at most once. -/
theorem setEnabledAll_keeps_ids_once (host : Host) (ext : Extension)
    (calls : List (Nat × Bool))
    (hnd : ext.d.enabledModules.Nodup) (hs : ext.settings = ext.d.enabledModules)
    (hcalls : enablesOnlyDisabled host ext calls = true) :
    (setEnabledAll host ext calls).settings.Nodup
    ∧ (setEnabledAll host ext calls).settings
        = (setEnabledAll host ext calls).d.enabledModules := by
  induction calls generalizing ext with
  | nil =>
    simp only [setEnabledAll]
    exact ⟨hs ▸ hnd, hs⟩
  | cons c cs ih =>
    simp only [enablesOnlyDisabled, Bool.and_eq_true] at hcalls
    obtain ⟨h1, h2⟩ := setEnabled_keeps_nodup host ext c.1 c.2 hnd hs hcalls.1
    simp only [setEnabledAll]
    exact ih _ h1 h2 hcalls.2

/-- C9, amended, at a concrete input: enable, disable and enable again the
module of `foo.py`. -/
theorem setEnabledAll_keeps_ids_once_witness :
    (extensionOf [PythonModuleV1.create demoHost "/data/modules/foo.py"] []).d.enabledModules.Nodup
    ∧ enablesOnlyDisabled demoHost
        (extensionOf [PythonModuleV1.create demoHost "/data/modules/foo.py"] [])
        [(0, true), (0, false), (0, true)] = true
    ∧ (setEnabledAll demoHost
        (extensionOf [PythonModuleV1.create demoHost "/data/modules/foo.py"] [])
        [(0, true), (0, false), (0, true)]).settings.Nodup :=
  ⟨by decide, by decide,
   (setEnabledAll_keeps_ids_once demoHost
      (extensionOf [PythonModuleV1.create demoHost "/data/modules/foo.py"] [])
      [(0, true), (0, false), (0, true)] (by decide) rfl (by decide)).1⟩


theorem pruneLoop_eq_aux (host : Host) (k : Nat) :
    ∀ (n : Nat) (mods : List PythonModuleV1), mods.length - n = k →
      pruneLoop host (n : Int) mods
        = mods.take n ++ (mods.drop n).filter (fun m => host.fileExists m.path) := by
  induction k using Nat.strong_induction_on with
  | _ k ih =>
    intro n mods hk
    rw [pruneLoop]
    by_cases hn : n < mods.length
    · have hcond : (0 : Int) ≤ (n : Int) ∧ (n : Int) < (mods.length : Int) := by
        constructor <;> omega
      rw [dif_pos hcond]
      have hdrop : mods.drop n = mods[n] :: mods.drop (n + 1) := List.drop_eq_getElem_cons hn
      simp only [Int.toNat_ofNat]
      by_cases hex : host.fileExists (mods[n]).path = true
      · simp only [hex, Bool.not_true, Bool.false_eq_true, if_false]
        have := ih (mods.length - (n + 1)) (by omega) (n + 1) mods rfl
        rw [show ((n : Int) + 1) = ((n + 1 : Nat) : Int) by simp, this]
        rw [hdrop, List.filter_cons_of_pos (by simpa using hex)]
        have htake : mods.take (n + 1) = mods.take n ++ [mods[n]] := by
          rw [List.take_succ, List.getElem?_eq_getElem hn]
          rfl
        rw [htake, List.append_assoc]
        rfl
      · simp only [hex, Bool.not_false, if_true]
        have hlen : (mods.eraseIdx n).length = mods.length - 1 := by
          rw [List.length_eraseIdx, if_pos hn]
        have := ih ((mods.eraseIdx n).length - n) (by omega) n (mods.eraseIdx n) rfl
        rw [show ((n : Int) - 1 + 1) = (n : Int) by omega, this]
        rw [hdrop, List.filter_cons_of_neg (by simpa using hex)]
        rw [List.eraseIdx_eq_take_drop_succ]
        have h1 : (mods.take n ++ mods.drop (n + 1)).take n = mods.take n := by
          rw [List.take_append_of_le_length (by simp; omega)]
          simp [List.take_take]
        have h2 : (mods.take n ++ mods.drop (n + 1)).drop n = mods.drop (n + 1) := by
          rw [List.drop_append_of_le_length (by simp; omega)]
          simp [List.drop_take]
        rw [h1, h2]
    · have hcond : ¬ ((0 : Int) ≤ (n : Int) ∧ (n : Int) < (mods.length : Int)) := by
        omega
      rw [dif_neg hcond]
      have h1 : mods.take n = mods := List.take_of_length_le (by omega)
      have h2 : mods.drop n = [] := List.drop_of_length_le (by omega)
      rw [h1, h2]
      simp

theorem pruneLoop_eq_filter (host : Host) (mods : List PythonModuleV1) :
    pruneLoop host 0 mods = mods.filter (fun m => host.fileExists m.path) := by
  have := pruneLoop_eq_aux host (mods.length - 0) 0 mods rfl
  simpa using this


/-! ## The discovery loop of updateDirectory -/

theorem any_id_iff (mods : List PythonModuleV1) (id : String) :
    mods.any (fun rhs => id == rhs.id) = true ↔ id ∈ mods.map (fun m => m.id) := by
  simp only [List.any_eq_true, beq_iff_eq, List.mem_map]
  constructor
  · rintro ⟨x, hx, h⟩
    exact ⟨x, hx, h.symm⟩
  · rintro ⟨x, hx, h⟩
    exact ⟨x, hx, h.symm⟩

theorem addLoop_cons_skip (host : Host) (en : List String) (p : String)
    (rest : List String) (mods : List PythonModuleV1)
    (h : host.completeBaseName p = "__pycache__"
      ∨ host.completeBaseName p ∈ mods.map (fun m => m.id)) :
    addLoop host en (p :: rest) mods = addLoop host en rest mods := by
  rw [addLoop]
  by_cases h1 : host.completeBaseName p = "__pycache__"
  · simp only [h1, if_true]
  · have h2 := (any_id_iff mods (host.completeBaseName p)).2 (h.resolve_left h1)
    simp only [h1, if_false, h2, if_true]

theorem addLoop_cons_add (host : Host) (en : List String) (p : String)
    (rest : List String) (mods : List PythonModuleV1)
    (h1 : host.completeBaseName p ≠ "__pycache__")
    (h2 : host.completeBaseName p ∉ mods.map (fun m => m.id)) :
    ∃ x : PythonModuleV1, x.id = host.completeBaseName p ∧ x.path = p
      ∧ (addLoop host en (p :: rest) mods).1 = (addLoop host en rest (mods ++ [x])).1 := by
  have h3 : mods.any (fun rhs => host.completeBaseName p == rhs.id) = false := by
    rw [Bool.eq_false_iff]
    intro hc
    exact h2 ((any_id_iff mods _).1 hc)
  rw [addLoop]
  simp only [h1, if_false, h3, Bool.false_eq_true]
  by_cases h4 : en.contains (PythonModuleV1.create host p).id = true
  · refine ⟨PythonModuleV1.load host (PythonModuleV1.create host p), ?_, ?_, ?_⟩
    · rw [PythonModuleV1.load_id]; rfl
    · rw [PythonModuleV1.load_path]; rfl
    · simp only [h4, if_true]
  · refine ⟨PythonModuleV1.create host p, rfl, rfl, ?_⟩
    simp only [h4, Bool.false_eq_true, if_false]

theorem addLoop_subset (host : Host) (en : List String) (entries : List String)
    (mods : List PythonModuleV1) :
    ∀ m ∈ mods, m ∈ (addLoop host en entries mods).1 := by
  induction entries generalizing mods with
  | nil => intro m hm; simpa [addLoop] using hm
  | cons p rest ih =>
    intro m hm
    by_cases h : host.completeBaseName p = "__pycache__"
        ∨ host.completeBaseName p ∈ mods.map (fun m => m.id)
    · rw [addLoop_cons_skip host en p rest mods h]
      exact ih mods m hm
    · rw [not_or] at h
      obtain ⟨x, _, _, hx⟩ := addLoop_cons_add host en p rest mods h.1 h.2
      rw [hx]
      exact ih _ m (List.mem_append_left _ hm)

theorem addLoop_mem (host : Host) (en : List String) (entries : List String)
    (mods : List PythonModuleV1) :
    ∀ m ∈ (addLoop host en entries mods).1, m ∈ mods ∨ m.path ∈ entries := by
  induction entries generalizing mods with
  | nil => intro m hm; left; simpa [addLoop] using hm
  | cons p rest ih =>
    intro m hm
    by_cases h : host.completeBaseName p = "__pycache__"
        ∨ host.completeBaseName p ∈ mods.map (fun m => m.id)
    · rw [addLoop_cons_skip host en p rest mods h] at hm
      rcases ih mods m hm with h1 | h1
      · exact Or.inl h1
      · exact Or.inr (List.mem_cons_of_mem _ h1)
    · rw [not_or] at h
      obtain ⟨x, _, hpath, hx⟩ := addLoop_cons_add host en p rest mods h.1 h.2
      rw [hx] at hm
      rcases ih _ m hm with h1 | h1
      · rcases List.mem_append.1 h1 with h2 | h2
        · exact Or.inl h2
        · rw [List.mem_singleton] at h2
          subst h2
          right
          rw [hpath]
          exact List.mem_cons_self _ _
      · exact Or.inr (List.mem_cons_of_mem _ h1)

theorem addLoop_nodup (host : Host) (en : List String) (entries : List String)
    (mods : List PythonModuleV1) (hnd : (mods.map (fun m => m.id)).Nodup) :
    ((addLoop host en entries mods).1.map (fun m => m.id)).Nodup := by
  induction entries generalizing mods with
  | nil => simpa [addLoop] using hnd
  | cons p rest ih =>
    by_cases h : host.completeBaseName p = "__pycache__"
        ∨ host.completeBaseName p ∈ mods.map (fun m => m.id)
    · rw [addLoop_cons_skip host en p rest mods h]
      exact ih mods hnd
    · rw [not_or] at h
      obtain ⟨x, hid, _, hx⟩ := addLoop_cons_add host en p rest mods h.1 h.2
      rw [hx]
      apply ih
      rw [List.map_append, List.nodup_append]
      refine ⟨hnd, by simp, ?_⟩
      intro a ha hb
      simp only [List.map_cons, List.map_nil, List.mem_singleton] at hb
      rw [hb, hid] at ha
      exact h.2 ha

theorem addLoop_covers (host : Host) (en : List String) (entries : List String)
    (mods : List PythonModuleV1) :
    ∀ p ∈ entries, host.completeBaseName p = "__pycache__"
      ∨ host.completeBaseName p ∈ (addLoop host en entries mods).1.map (fun m => m.id) := by
  induction entries generalizing mods with
  | nil => intro p hp; cases hp
  | cons q rest ih =>
    intro p hp
    by_cases h : host.completeBaseName q = "__pycache__"
        ∨ host.completeBaseName q ∈ mods.map (fun m => m.id)
    · rw [addLoop_cons_skip host en q rest mods h]
      rcases List.mem_cons.1 hp with hpq | hpr
      · subst hpq
        rcases h with h | h
        · exact Or.inl h
        · right
          obtain ⟨x, hx, hxid⟩ := List.mem_map.1 h
          exact List.mem_map.2 ⟨x, addLoop_subset host en rest mods x hx, hxid⟩
      · exact ih mods p hpr
    · rw [not_or] at h
      obtain ⟨x, hid, _, hx⟩ := addLoop_cons_add host en q rest mods h.1 h.2
      rw [hx]
      rcases List.mem_cons.1 hp with hpq | hpr
      · subst hpq
        right
        exact List.mem_map.2
          ⟨x, addLoop_subset host en rest _ x (List.mem_append_right _ (List.mem_singleton_self x)),
            hid⟩
      · exact ih _ p hpr

theorem addLoop_nothing_new (host : Host) (en : List String) (entries : List String)
    (mods : List PythonModuleV1)
    (h : ∀ p ∈ entries, host.completeBaseName p = "__pycache__"
      ∨ host.completeBaseName p ∈ mods.map (fun m => m.id)) :
    addLoop host en entries mods = (mods, []) := by
  induction entries with
  | nil => rfl
  | cons p rest ih =>
    rw [addLoop_cons_skip host en p rest mods (h p (List.mem_cons_self _ _))]
    exact ih (fun q hq => h q (List.mem_cons_of_mem _ hq))


/-! ## Sorting by display name -/

theorem StdSort.mem_iff {host : Host} (hs : StdSort host)
    (comp : PythonModuleV1 → PythonModuleV1 → Bool) (l : List PythonModuleV1)
    (x : PythonModuleV1) : x ∈ host.sort comp l ↔ x ∈ l :=
  (hs.perm comp l).mem_iff

theorem nameLess_eq_false_iff (host : Host) (a b : PythonModuleV1) :
    nameLess host b a = false ↔ 0 ≤ host.localeAwareCompare b.name a.name := by
  simp [nameLess]

theorem Collation.nonneg_iff {cmp : String → String → Int} (hc : Collation cmp)
    (a b : String) : 0 ≤ cmp b a ↔ cmp a b ≤ 0 := by
  have h := hc.swap b a
  constructor
  · intro h1
    by_contra h2
    have : cmp b a < 0 := h.2 (by omega)
    omega
  · intro h1
    by_contra h2
    have : 0 < cmp a b := h.1 (by omega)
    omega

theorem nameLess_strictWeakOrdering (host : Host) (hc : Collation host.localeAwareCompare) :
    StrictWeakOrdering (nameLess host) := by
  constructor
  · intro a b hab
    rw [nameLess_eq_false_iff]
    have h1 : host.localeAwareCompare a.name b.name < 0 := by
      simpa [nameLess] using hab
    have := (hc.swap a.name b.name).1 h1
    omega
  · intro a b c hab hbc
    rw [nameLess_eq_false_iff] at hab hbc ⊢
    rw [hc.nonneg_iff] at hab hbc ⊢
    exact hc.trans _ _ _ hbc hab

theorem StdSort.ascending {host : Host} (hs : StdSort host)
    (hc : Collation host.localeAwareCompare) (l : List PythonModuleV1) :
    List.Pairwise (fun a b => nameLess host b a = false) (host.sort (nameLess host) l) :=
  hs.sorted (nameLess host) l (nameLess_strictWeakOrdering host hc)

theorem eq_of_perm_of_pairwise {α : Type} (r : α → α → Prop) :
    ∀ (l₁ l₂ : List α), l₁.Perm l₂ → l₁.Pairwise r → l₂.Pairwise r →
      (∀ a ∈ l₁, ∀ b ∈ l₁, r a b → r b a → a = b) → l₁ = l₂ := by
  intro l₁
  induction l₁ with
  | nil =>
    intro l₂ hp _ _ _
    exact (List.Perm.nil_eq hp)
  | cons a t ih =>
    intro l₂ hp h1 h2 hanti
    cases l₂ with
    | nil => exact absurd (List.Perm.eq_nil hp) (List.cons_ne_nil a t)
    | cons b u =>
      have hab : a = b := by
        by_contra hne
        have ha : a ∈ b :: u := hp.mem_iff.1 (List.mem_cons_self a t)
        have hb : b ∈ a :: t := hp.mem_iff.2 (List.mem_cons_self b u)
        have hau : a ∈ u := by
          rcases List.mem_cons.1 ha with h | h
          · exact absurd h hne
          · exact h
        have hbt : b ∈ t := by
          rcases List.mem_cons.1 hb with h | h
          · exact absurd h.symm hne
          · exact h
        have rab : r a b := (List.pairwise_cons.1 h1).1 b hbt
        have rba : r b a := (List.pairwise_cons.1 h2).1 a hau
        exact hne (hanti a (List.mem_cons_self a t) b hb rab rba)
      subst hab
      have hp1 : t.Perm u := List.Perm.cons_inv hp
      have := ih u hp1 (List.pairwise_cons.1 h1).2 (List.pairwise_cons.1 h2).2
        (fun x hx y hy => hanti x (List.mem_cons_of_mem _ hx) y (List.mem_cons_of_mem _ hy))
      rw [this]

theorem insertionHost_stdSort : StdSort insertionHost := by
  constructor
  · intro comp l
    exact List.perm_insertionSort _ l
  · intro comp l hcomp
    haveI : IsTotal PythonModuleV1 (fun a b => comp b a = false) := by
      constructor
      intro a b
      by_cases h : comp b a = true
      · exact Or.inr (hcomp.asymm b a h)
      · left
        simpa using h
    haveI : IsTrans PythonModuleV1 (fun a b => comp b a = false) := by
      constructor
      intro a b c hab hbc
      exact hcomp.notLessTrans c b a hbc hab
    exact List.sorted_insertionSort (fun a b => comp b a = false) l

/-! ## Claims on updateDirectory -/

theorem updateDirectory_modules (host : Host) (ext : Extension) (path : String) :
    (updateDirectory host ext path).1.d.modules
      = host.sort (nameLess host)
          (addLoop host ext.d.enabledModules (host.entries path)
            (ext.d.modules.filter (fun m => host.fileExists m.path))).1 := by
  simp only [updateDirectory, pruneLoop_eq_filter]

theorem updateDirectory_events (host : Host) (ext : Extension) (path : String) :
    (updateDirectory host ext path).2
      = (addLoop host ext.d.enabledModules (host.entries path)
            (ext.d.modules.filter (fun m => host.fileExists m.path))).2
          ++ [Event.modulesChanged] := by
  simp only [updateDirectory, pruneLoop_eq_filter]

theorem updateDirectory_paths_exist (host : Host) (ext : Extension) (path : String)
    (hfs : ListingExists host path) (hs : StdSort host) :
    ∀ m ∈ (updateDirectory host ext path).1.d.modules, host.fileExists m.path = true := by
  intro m hm
  rw [updateDirectory_modules, hs.mem_iff] at hm
  rcases addLoop_mem host _ _ _ m hm with h | h
  · exact (List.mem_filter.1 h).2
  · exact hfs _ h

theorem updateDirectory_covers (host : Host) (ext : Extension) (path : String)
    (hs : StdSort host) :
    ∀ p ∈ host.entries path, host.completeBaseName p = "__pycache__"
      ∨ host.completeBaseName p
          ∈ (updateDirectory host ext path).1.d.modules.map (fun m => m.id) := by
  intro p hp
  rcases addLoop_covers host ext.d.enabledModules (host.entries path)
      (ext.d.modules.filter (fun m => host.fileExists m.path)) p hp with h | h
  · exact Or.inl h
  · right
    rw [updateDirectory_modules]
    exact ((hs.perm _ _).map _).mem_iff.2 h

theorem updateDirectory_again_modules (host : Host) (ext : Extension) (path : String)
    (hfs : ListingExists host path) (hs : StdSort host) :
    (updateDirectory host (updateDirectory host ext path).1 path).1.d.modules
      = host.sort (nameLess host) (updateDirectory host ext path).1.d.modules
    ∧ (updateDirectory host (updateDirectory host ext path).1 path).2
      = [Event.modulesChanged] := by
  have hen : (updateDirectory host ext path).1.d.enabledModules = ext.d.enabledModules := rfl
  have hfilter : (updateDirectory host ext path).1.d.modules.filter
      (fun m => host.fileExists m.path) = (updateDirectory host ext path).1.d.modules :=
    List.filter_eq_self.2 (updateDirectory_paths_exist host ext path hfs hs)
  have hadd := addLoop_nothing_new host ext.d.enabledModules (host.entries path)
    (updateDirectory host ext path).1.d.modules (updateDirectory_covers host ext path hs)
  constructor
  · rw [updateDirectory_modules host (updateDirectory host ext path).1, hfilter, hen, hadd]
  · rw [updateDirectory_events host (updateDirectory host ext path).1, hfilter, hen, hadd]
    rfl

theorem codePointCompare_collation : Collation codePointCompare := by
  constructor
  · intro a b
    unfold codePointCompare
    split_ifs with h1 h2 h3 <;> simp_all
    exact lt_asymm h1 h2
  · intro a b c
    unfold codePointCompare
    intro hab hbc
    have h1 : ¬ codePoints b < codePoints a := by
      intro h
      split_ifs at hab with h2 <;> simp_all
      exact lt_asymm h h2
    have h2 : ¬ codePoints c < codePoints b := by
      intro h
      split_ifs at hbc with h3 <;> simp_all
      exact lt_asymm h h3
    have h3 : ¬ codePoints c < codePoints a := by
      intro h
      exact h1 (lt_of_le_of_lt (not_lt.1 h2) h)
    split_ifs <;> simp_all

set_option maxRecDepth 200000 in
/-- C4, as the claim states it, fails on the order. The directory holds
eighteen modules whose entries all exist, `calc` and `calc2` are enabled and
both declare the display name `Calculator`, the names are compared by code
point. The first run of `updateDirectory` leaves `calc2` before `calc`, the
second run on the same directory leaves `calc` before `calc2`: the sort of the
library, run on the sorted collection of more than sixteen modules, makes the
two modules with equal display name change places. -/
theorem updateDirectory_twice_reorders_equal_names :
    ListingExists manyHost "/data/many"
    ∧ Collation manyHost.localeAwareCompare
    ∧ (updateDirectory manyHost (extensionOf [] ["calc", "calc2"])
        "/data/many").1.d.modules.map (fun m => (m.id, m.name))
      = [("calc2", "Calculator"), ("calc", "Calculator"), ("m03", "m03"), ("m04", "m04"),
         ("m05", "m05"), ("m06", "m06"), ("m07", "m07"), ("m08", "m08"), ("m09", "m09"),
         ("m10", "m10"), ("m11", "m11"), ("m12", "m12"), ("m13", "m13"), ("m14", "m14"),
         ("m15", "m15"), ("m16", "m16"), ("m17", "m17"), ("m18", "m18")]
    ∧ (updateDirectory manyHost
        (updateDirectory manyHost (extensionOf [] ["calc", "calc2"]) "/data/many").1
        "/data/many").1.d.modules.map (fun m => (m.id, m.name))
      = [("calc", "Calculator"), ("calc2", "Calculator"), ("m03", "m03"), ("m04", "m04"),
         ("m05", "m05"), ("m06", "m06"), ("m07", "m07"), ("m08", "m08"), ("m09", "m09"),
         ("m10", "m10"), ("m11", "m11"), ("m12", "m12"), ("m13", "m13"), ("m14", "m14"),
         ("m15", "m15"), ("m16", "m16"), ("m17", "m17"), ("m18", "m18")]
    ∧ (updateDirectory manyHost
        (updateDirectory manyHost (extensionOf [] ["calc", "calc2"]) "/data/many").1
        "/data/many").1
      ≠ (updateDirectory manyHost (extensionOf [] ["calc", "calc2"]) "/data/many").1 := by
  have hfs : ListingExists manyHost "/data/many" := by
    unfold ListingExists
    decide
  have h1 : (updateDirectory manyHost (extensionOf [] ["calc", "calc2"])
        "/data/many").1.d.modules.map (fun m => (m.id, m.name))
      = [("calc2", "Calculator"), ("calc", "Calculator"), ("m03", "m03"), ("m04", "m04"),
         ("m05", "m05"), ("m06", "m06"), ("m07", "m07"), ("m08", "m08"), ("m09", "m09"),
         ("m10", "m10"), ("m11", "m11"), ("m12", "m12"), ("m13", "m13"), ("m14", "m14"),
         ("m15", "m15"), ("m16", "m16"), ("m17", "m17"), ("m18", "m18")] := by
    rw [updateDirectory_modules]
    decide
  have h2 : (updateDirectory manyHost
        (updateDirectory manyHost (extensionOf [] ["calc", "calc2"]) "/data/many").1
        "/data/many").1.d.modules.map (fun m => (m.id, m.name))
      = [("calc", "Calculator"), ("calc2", "Calculator"), ("m03", "m03"), ("m04", "m04"),
         ("m05", "m05"), ("m06", "m06"), ("m07", "m07"), ("m08", "m08"), ("m09", "m09"),
         ("m10", "m10"), ("m11", "m11"), ("m12", "m12"), ("m13", "m13"), ("m14", "m14"),
         ("m15", "m15"), ("m16", "m16"), ("m17", "m17"), ("m18", "m18")] := by
    rw [updateDirectory_modules, updateDirectory_modules]
    decide
  refine ⟨hfs, codePointCompare_collation, h1, h2, ?_⟩
  intro heq
  rw [heq, h1] at h2
  exact absurd h2 (by decide)

/-- C4, amended. On a listing whose entries exist, with a collation order for
the display names and a sort that keeps the promise of `std::sort`, a second
run of `updateDirectory` on the same directory right after a first one leaves
the same modules, rearranged at most (again in ascending order of display
name), with the same enabled list; it issues only the `modulesChanged` signal
and invokes `load()` on no module; and when no two modules of the collection
have display names that compare equal, it returns the extension of the first
run as it is, the modules in the same order. -/
theorem updateDirectory_twice_same_modules (host : Host) (ext : Extension) (path : String)
    (hfs : ListingExists host path) (hc : Collation host.localeAwareCompare)
    (hs : StdSort host) :
    ((updateDirectory host (updateDirectory host ext path).1 path).1.d.modules.Perm
        (updateDirectory host ext path).1.d.modules)
    ∧ (updateDirectory host (updateDirectory host ext path).1 path).1.d.enabledModules
      = (updateDirectory host ext path).1.d.enabledModules
    ∧ (updateDirectory host (updateDirectory host ext path).1 path).1.settings
      = (updateDirectory host ext path).1.settings
    ∧ (updateDirectory host (updateDirectory host ext path).1 path).2
      = [Event.modulesChanged]
    ∧ (∀ i, Event.load i ∉ (updateDirectory host (updateDirectory host ext path).1 path).2)
    ∧ ((∀ a ∈ (updateDirectory host ext path).1.d.modules,
          ∀ b ∈ (updateDirectory host ext path).1.d.modules,
          host.localeAwareCompare a.name b.name = 0 → a = b) →
        (updateDirectory host (updateDirectory host ext path).1 path).1
          = (updateDirectory host ext path).1) := by
  obtain ⟨hmods, hev⟩ := updateDirectory_again_modules host ext path hfs hs
  refine ⟨?_, rfl, rfl, hev, ?_, ?_⟩
  · rw [hmods]
    exact hs.perm _ _
  · intro i hi
    rw [hev] at hi
    simp at hi
  · intro hdistinct
    have hsorted1 : List.Pairwise (fun a b => nameLess host b a = false)
        (updateDirectory host ext path).1.d.modules := by
      rw [updateDirectory_modules]
      exact hs.ascending hc _
    have hsorted2 : List.Pairwise (fun a b => nameLess host b a = false)
        (host.sort (nameLess host) (updateDirectory host ext path).1.d.modules) :=
      hs.ascending hc _
    have heq : (updateDirectory host ext path).1.d.modules
        = host.sort (nameLess host) (updateDirectory host ext path).1.d.modules := by
      apply eq_of_perm_of_pairwise _ _ _ (hs.perm _ _).symm hsorted1 hsorted2
      intro a ha b hb hab hba
      apply hdistinct a ha b hb
      rw [nameLess_eq_false_iff] at hab hba
      have := (hc.nonneg_iff a.name b.name).1 hab
      omega
    have h1 : (updateDirectory host (updateDirectory host ext path).1 path).1
        = { (updateDirectory host ext path).1 with
            d := { (updateDirectory host ext path).1.d with
              modules := (updateDirectory host (updateDirectory host ext path).1 path).1.d.modules } } :=
      rfl
    rw [h1, hmods, ← heq]

/-- C6. After `updateDirectory`, on a listing whose entries exist and with a
sort that keeps the promise of `std::sort`, every module of the collection has
a path that exists, so a module whose file was deleted is gone wherever it
stood in the collection; every module whose path exists is kept; the enabled
list and its persisted copy are as before the run. -/
theorem updateDirectory_prunes_deleted (host : Host) (ext : Extension) (path : String)
    (hfs : ListingExists host path) (hs : StdSort host) :
    (∀ m ∈ (updateDirectory host ext path).1.d.modules, host.fileExists m.path = true)
    ∧ (∀ m ∈ ext.d.modules, host.fileExists m.path = false →
        m ∉ (updateDirectory host ext path).1.d.modules)
    ∧ (∀ m ∈ ext.d.modules, host.fileExists m.path = true →
        m ∈ (updateDirectory host ext path).1.d.modules)
    ∧ (updateDirectory host ext path).1.d.enabledModules = ext.d.enabledModules
    ∧ (updateDirectory host ext path).1.settings = ext.settings := by
  refine ⟨updateDirectory_paths_exist host ext path hfs hs, ?_, ?_, rfl, rfl⟩
  · intro m _ hgone hm
    have := updateDirectory_paths_exist host ext path hfs hs m hm
    rw [hgone] at this
    cases this
  · intro m hm hex
    rw [updateDirectory_modules, hs.mem_iff]
    exact addLoop_subset host _ _ _ m (List.mem_filter.2 ⟨hm, hex⟩)

/-- C7. If no two modules of the collection share an id before
`updateDirectory`, no two share an id after it, whatever the directory holds
(the sort keeping the promise of `std::sort`); `setEnabled` leaves the ids of
the collection as they are, position by position, and `handleQuery` returns
the extension unchanged. -/
theorem updateDirectory_keeps_ids_unique (host : Host) (ext : Extension) (path : String)
    (hs : StdSort host)
    (hnd : (ext.d.modules.map (fun m => m.id)).Nodup) :
    ((updateDirectory host ext path).1.d.modules.map (fun m => m.id)).Nodup
    ∧ (∀ i e, (setEnabled host ext i e).1.d.modules.map (fun m => m.id)
        = ext.d.modules.map (fun m => m.id))
    ∧ (∀ query, (handleQuery host ext query).1 = ext) := by
  refine ⟨?_, ?_, fun _ => rfl⟩
  · rw [updateDirectory_modules]
    rw [((hs.perm _ _).map _).nodup_iff]
    apply addLoop_nodup
    exact List.Nodup.sublist ((List.filter_sublist _).map _) hnd
  · intro i e
    cases hm : ext.d.modules[i]? with
    | none =>
      have : setEnabled host ext i e = (ext, []) := by
        unfold setEnabled
        rw [hm]
      rw [this]
    | some m =>
      rw [setEnabled_of_some host ext i m e hm]
      simp only [List.map_set]
      have hid : (if e then PythonModuleV1.load host m else PythonModuleV1.unload m).id = m.id := by
        cases e
        · exact PythonModuleV1.unload_id m
        · exact PythonModuleV1.load_id host m
      rw [hid]
      apply List.ext_getElem?
      intro n
      rw [List.getElem?_set]
      split
      · rename_i heq
        subst heq
        have hlt : i < ext.d.modules.length := by
          by_contra hge
          have hnone : ext.d.modules[i]? = none := List.getElem?_eq_none (by omega)
          rw [hnone] at hm
          cases hm
        rw [List.getElem?_map, hm]
        simp [hlt]
      · rfl

theorem insertionHost_listingExists : ListingExists insertionHost "/data/modules" := by
  unfold ListingExists
  decide

theorem insertionHost_runs_as_demoHost :
    updateDirectory insertionHost (extensionOf [loadedModule "gone" ""] ["foo"]) "/data/modules"
      = updateDirectory demoHost (extensionOf [loadedModule "gone" ""] ["foo"]) "/data/modules"
    ∧ updateDirectory insertionHost (extensionOf [] ["foo", "bar"]) "/data/modules"
      = updateDirectory demoHost (extensionOf [] ["foo", "bar"]) "/data/modules"
    ∧ updateDirectory insertionHost
        (extensionOf [loadedModule "gone" "", loadedModule "lost" "", loadedModule "bar" "b "]
          ["gone", "bar"]) "/data/modules"
      = updateDirectory demoHost
        (extensionOf [loadedModule "gone" "", loadedModule "lost" "", loadedModule "bar" "b "]
          ["gone", "bar"]) "/data/modules"
    ∧ updateDirectory insertionHost (extensionOf [loadedModule "bar" "b "] ["bar"])
        "/data/modules"
      = updateDirectory demoHost (extensionOf [loadedModule "bar" "b "] ["bar"])
        "/data/modules" := by
  simp only [updateDirectory, pruneLoop_eq_filter]
  decide

/-- C4, amended, at a concrete input: the collection holds a module whose file
is gone, `foo` is enabled, and the directory holds `foo.py`, `__pycache__`,
`bar.py` and a directory `foo`; the display names `bar` and `foo` differ. -/
theorem updateDirectory_twice_same_modules_witness :
    ListingExists insertionHost "/data/modules"
    ∧ Collation insertionHost.localeAwareCompare
    ∧ StdSort insertionHost
    ∧ (updateDirectory insertionHost
        (updateDirectory insertionHost (extensionOf [loadedModule "gone" ""] ["foo"])
          "/data/modules").1 "/data/modules").2 = [Event.modulesChanged]
    ∧ (updateDirectory insertionHost
        (updateDirectory insertionHost (extensionOf [loadedModule "gone" ""] ["foo"])
          "/data/modules").1 "/data/modules").1
      = (updateDirectory insertionHost (extensionOf [loadedModule "gone" ""] ["foo"])
          "/data/modules").1 :=
  ⟨insertionHost_listingExists, codePointCompare_collation, insertionHost_stdSort,
   (updateDirectory_twice_same_modules insertionHost
      (extensionOf [loadedModule "gone" ""] ["foo"])
      "/data/modules" insertionHost_listingExists codePointCompare_collation
      insertionHost_stdSort).2.2.2.1,
   (updateDirectory_twice_same_modules insertionHost
      (extensionOf [loadedModule "gone" ""] ["foo"])
      "/data/modules" insertionHost_listingExists codePointCompare_collation
      insertionHost_stdSort).2.2.2.2.2
      (by rw [updateDirectory_modules]; decide)⟩

/-- C5, as the claim states it, fails. With `foo` and `bar` enabled and an
empty collection, `updateDirectory` on the directory with `foo.py` and
`bar.py` lists `bar` before `foo`, and `bar` does not compare greater than or
equal to `foo`. -/
theorem updateDirectory_order_not_descending :
    (updateDirectory demoHost (extensionOf [] ["foo", "bar"])
        "/data/modules").1.d.modules.map (fun m => m.name) = ["bar", "foo"]
    ∧ ¬ (0 ≤ demoHost.localeAwareCompare "bar" "foo") := by
  rw [updateDirectory_modules]
  decide

/-- C5, amended. After every run of `updateDirectory`, with a collation order
for the display names and a sort that keeps the promise of `std::sort`, the
collection is in ascending order of display name: for every module `a` that
stands before a module `b`, adjacent ones included, `a.name()` compares less
than or equal to `b.name()`. -/
theorem updateDirectory_order_ascending (host : Host) (ext : Extension) (path : String)
    (hc : Collation host.localeAwareCompare) (hs : StdSort host)
    (i j : Nat) (a b : PythonModuleV1)
    (hij : i < j)
    (ha : (updateDirectory host ext path).1.d.modules[i]? = some a)
    (hb : (updateDirectory host ext path).1.d.modules[j]? = some b) :
    host.localeAwareCompare a.name b.name ≤ 0 := by
  rw [updateDirectory_modules] at ha hb
  have hsorted := hs.ascending hc
    (addLoop host ext.d.enabledModules (host.entries path)
      (ext.d.modules.filter (fun m => host.fileExists m.path))).1
  rw [List.pairwise_iff_getElem] at hsorted
  obtain ⟨hi, hai⟩ := List.getElem?_eq_some.1 ha
  obtain ⟨hj, hbj⟩ := List.getElem?_eq_some.1 hb
  have := hsorted i j hi hj hij
  rw [hai, hbj, nameLess_eq_false_iff, hc.nonneg_iff] at this
  exact this

/-- C5, amended, at a concrete input: `bar` at position 0 and `foo` at
position 1 after the run. -/
theorem updateDirectory_order_ascending_witness :
    Collation insertionHost.localeAwareCompare
    ∧ StdSort insertionHost
    ∧ insertionHost.localeAwareCompare "bar" "foo" ≤ 0 :=
  ⟨codePointCompare_collation, insertionHost_stdSort,
   updateDirectory_order_ascending insertionHost (extensionOf [] ["foo", "bar"])
     "/data/modules" codePointCompare_collation insertionHost_stdSort 0 1
     { path := "/data/modules/bar.py", id := "bar", name := "bar", trigger := "b ",
       state := State.Loaded, lastError := none }
     { path := "/data/modules/foo.py", id := "foo", name := "foo", trigger := "",
       state := State.Loaded, lastError := none }
     (by decide)
     (by rw [updateDirectory_modules]; decide)
     (by rw [updateDirectory_modules]; decide)⟩

/-- C6 at a concrete input: the first two modules of the collection lost
their files, the third one still has its file; the id of the first one stays in
the enabled list. -/
theorem updateDirectory_prunes_deleted_witness :
    ListingExists insertionHost "/data/modules"
    ∧ StdSort insertionHost
    ∧ (∀ m ∈ (updateDirectory insertionHost
        (extensionOf [loadedModule "gone" "", loadedModule "lost" "", loadedModule "bar" "b "]
          ["gone", "bar"]) "/data/modules").1.d.modules,
        insertionHost.fileExists m.path = true)
    ∧ loadedModule "gone" "" ∉ (updateDirectory insertionHost
        (extensionOf [loadedModule "gone" "", loadedModule "lost" "", loadedModule "bar" "b "]
          ["gone", "bar"]) "/data/modules").1.d.modules
    ∧ loadedModule "lost" "" ∉ (updateDirectory insertionHost
        (extensionOf [loadedModule "gone" "", loadedModule "lost" "", loadedModule "bar" "b "]
          ["gone", "bar"]) "/data/modules").1.d.modules
    ∧ (updateDirectory insertionHost
        (extensionOf [loadedModule "gone" "", loadedModule "lost" "", loadedModule "bar" "b "]
          ["gone", "bar"]) "/data/modules").1.d.enabledModules = ["gone", "bar"] :=
  ⟨insertionHost_listingExists, insertionHost_stdSort,
   (updateDirectory_prunes_deleted insertionHost
      (extensionOf [loadedModule "gone" "", loadedModule "lost" "", loadedModule "bar" "b "]
        ["gone", "bar"]) "/data/modules" insertionHost_listingExists
      insertionHost_stdSort).1,
   (updateDirectory_prunes_deleted insertionHost
      (extensionOf [loadedModule "gone" "", loadedModule "lost" "", loadedModule "bar" "b "]
        ["gone", "bar"]) "/data/modules" insertionHost_listingExists
      insertionHost_stdSort).2.1
      (loadedModule "gone" "") (by decide) (by decide),
   (updateDirectory_prunes_deleted insertionHost
      (extensionOf [loadedModule "gone" "", loadedModule "lost" "", loadedModule "bar" "b "]
        ["gone", "bar"]) "/data/modules" insertionHost_listingExists
      insertionHost_stdSort).2.1
      (loadedModule "lost" "") (by decide) (by decide),
   (updateDirectory_prunes_deleted insertionHost
      (extensionOf [loadedModule "gone" "", loadedModule "lost" "", loadedModule "bar" "b "]
        ["gone", "bar"]) "/data/modules" insertionHost_listingExists
      insertionHost_stdSort).2.2.2.1⟩

/-- C7 at a concrete input: the collection holds `bar`, the directory holds
`foo.py` and a directory `foo` that derive the same id; of the two only
`foo.py`, seen first, becomes a module. -/
theorem updateDirectory_keeps_ids_unique_witness :
    StdSort insertionHost
    ∧ ([loadedModule "bar" "b "].map (fun m => m.id)).Nodup
    ∧ ((updateDirectory insertionHost (extensionOf [loadedModule "bar" "b "] ["bar"])
        "/data/modules").1.d.modules.map (fun m => m.id)).Nodup
    ∧ (updateDirectory insertionHost (extensionOf [loadedModule "bar" "b "] ["bar"])
        "/data/modules").1.d.modules.map (fun m => m.path)
      = ["/data/modules/bar.py", "/data/modules/foo.py"] :=
  ⟨insertionHost_stdSort, by decide,
   (updateDirectory_keeps_ids_unique insertionHost
      (extensionOf [loadedModule "bar" "b "] ["bar"])
      "/data/modules" insertionHost_stdSort (by decide)).1,
   by rw [updateDirectory_modules]; decide⟩

/-! ## The mutex -/

theorem triggeredLoop_events (host : Host) (d : List String) (query : Query) (idx : Nat)
    (l : List PythonModuleV1) :
    ∀ e ∈ (triggeredLoop host d query idx l).2, ∃ k v, e = Event.handleQuery k v := by
  induction l generalizing idx with
  | nil => intro e he; simp [triggeredLoop] at he
  | cons a rest ih =>
    intro e he
    unfold triggeredLoop at he
    by_cases ha : triggeredMatch d query a = true
    · simp only [ha, if_true, List.mem_singleton] at he
      exact ⟨_, _, he⟩
    · simp only [ha, Bool.false_eq_true, if_false] at he
      exact ih (idx + 1) e he

theorem untriggeredLoop_events (host : Host) (d : List String) (idx : Nat)
    (l : List PythonModuleV1) (query : Query) :
    ∀ e ∈ (untriggeredLoop host d idx l query).2, ∃ k v, e = Event.handleQuery k v := by
  induction l generalizing idx query with
  | nil => intro e he; simp [untriggeredLoop] at he
  | cons a rest ih =>
    intro e he
    unfold untriggeredLoop at he
    by_cases ha : untriggeredMatch d a = true
    · simp only [ha, if_true] at he
      by_cases hv : (host.invokeCallable a query).isValid = true
      · simp only [hv, Bool.not_true, Bool.false_eq_true, if_false, List.mem_cons] at he
        rcases he with he | he
        · exact ⟨_, _, he⟩
        · exact ih (idx + 1) _ e he
      · simp only [hv, Bool.not_false, if_true, List.mem_singleton] at he
        exact ⟨_, _, he⟩
    · simp only [ha, Bool.false_eq_true, if_false] at he
      exact ih (idx + 1) _ e he

theorem serialized_calls_then_unlock (tr : List Event)
    (h : ∀ e ∈ tr, ∃ k v, e = Event.handleQuery k v) :
    serialized true (tr ++ [Event.unlock]) = true := by
  induction tr with
  | nil => rfl
  | cons e es ih =>
    obtain ⟨k, v, he⟩ := h e (List.mem_cons_self _ _)
    subst he
    simp only [List.cons_append, serialized, Bool.true_and]
    exact ih (fun x hx => h x (List.mem_cons_of_mem _ hx))

theorem handleQuery_serialized (host : Host) (ext : Extension) (query : Query) :
    serialized false (handleQuery host ext query).2.2 = true := by
  simp only [handleQuery, List.singleton_append, List.cons_append, serialized, Bool.not_false,
    Bool.true_and]
  apply serialized_calls_then_unlock
  by_cases hq : query.isTriggered = true
  · simp only [hq, if_true]
    exact triggeredLoop_events host _ query 0 _
  · simp only [hq, Bool.false_eq_true, if_false]
    exact untriggeredLoop_events host _ 0 _ query

/-- C10 on the code. `handleQuery` holds `pythonMutex` around every handler
call and releases it on return, for every input. `setEnabled` calls `load()`
and `unload()`, and `updateDirectory` calls `load()`, without the mutex ever
being taken: for the module of `foo.py` the events of `setEnabled` are the
settings write and the call, those of `updateDirectory` the call and the
signal. -/
theorem setEnabled_and_updateDirectory_call_without_lock :
    (∀ host ext query, serialized false (handleQuery host ext query).2.2 = true)
    ∧ (setEnabled demoHost
        (extensionOf [PythonModuleV1.create demoHost "/data/modules/foo.py"] []) 0 true).2
      = [Event.setValue "enabled_modules" ["foo"], Event.load 0]
    ∧ serialized false (setEnabled demoHost
        (extensionOf [PythonModuleV1.create demoHost "/data/modules/foo.py"] []) 0 true).2
      = false
    ∧ (setEnabled demoHost (extensionOf [loadedModule "foo" ""] ["foo"]) 0 false).2
      = [Event.setValue "enabled_modules" [], Event.unload 0]
    ∧ serialized false
        (setEnabled demoHost (extensionOf [loadedModule "foo" ""] ["foo"]) 0 false).2
      = false
    ∧ (updateDirectory demoHost (extensionOf [] ["foo"]) "/data/modules").2
      = [Event.load 0, Event.modulesChanged]
    ∧ serialized false (updateDirectory demoHost (extensionOf [] ["foo"]) "/data/modules").2
      = false := by
  refine ⟨handleQuery_serialized, by decide, by decide, by decide, by decide, ?_, ?_⟩
  · rw [updateDirectory_events]
    decide
  · rw [updateDirectory_events]
    decide

end Python
